import Mathlib

/-!
Verification of the SLA / reporting aggregation core of the CusDesktop
ticket-management backend.

The Python source (`backend/app/views/reports_sla.py`,
`reports_sla_overdue.py`, `reports_ticket.py`) is shallowly embedded below:
datetimes become a calendar `Date` (year/month/day with validity proofs)
plus a rational second-of-day, Python floats become rationals, Python dicts
become association lists with Python-dict update semantics, and SQL row
sets become lists of record structures.  Label formatting helpers
(`_format_label`, `_palette`) are presentation-only and are not modelled;
no claim refers to them.
-/

namespace CusDesktop

/-! ### Python numeric primitives -/

/-- Python `int(x)` on a (non-integral) number truncates toward zero. -/
def intTrunc (q : ℚ) : ℤ := if 0 ≤ q then ⌊q⌋ else ⌈q⌉

/-- Python `round` uses banker's rounding (round half to even). -/
def roundHalfEven (x : ℚ) : ℤ :=
  let f := ⌊x⌋
  let r := x - f
  if r < 1/2 then f
  else if 1/2 < r then f + 1
  else if f % 2 = 0 then f else f + 1

/-- Python `round(x, n)` for `n` decimal digits. -/
def pyRound (x : ℚ) (n : ℕ) : ℚ :=
  (roundHalfEven (x * 10 ^ n) : ℚ) / 10 ^ n

theorem roundHalfEven_nonneg {x : ℚ} (hx : 0 ≤ x) : 0 ≤ roundHalfEven x := by
  have h0 : (0 : ℤ) ≤ ⌊x⌋ := by positivity
  unfold roundHalfEven
  dsimp only
  split_ifs <;> omega

theorem pyRound_nonneg {x : ℚ} (n : ℕ) (hx : 0 ≤ x) : 0 ≤ pyRound x n := by
  unfold pyRound
  have h1 : (0:ℚ) ≤ (roundHalfEven (x * 10 ^ n) : ℚ) := by
    exact_mod_cast roundHalfEven_nonneg (by positivity)
  positivity

/-- Substring containment on character lists (Python's `k in s`). -/
def listContainsSub (s pat : List Char) : Bool :=
  match s with
  | [] => pat.isEmpty
  | _ :: rest => pat.isPrefixOf s || listContainsSub rest pat

/-- Python `k in s` substring test on strings. -/
def strContains (s pat : String) : Bool :=
  listContainsSub s.toList pat.toList

/-- Python `str.lower()` on one character (the inputs here are ASCII or
CJK; CJK characters are unaffected by lowering). -/
def charLower (c : Char) : Char :=
  if 'A' ≤ c ∧ c ≤ 'Z' then Char.ofNat (c.toNat + 32) else c

/-- Python `str.lower()`. -/
def pyLower (s : String) : String := String.mk (s.toList.map charLower)

def isPySpace (c : Char) : Bool :=
  c = ' ' || c = '\t' || c = '\n' || c = '\r' || c = '\x0b' || c = '\x0c'

/-- Python `str.strip()`. -/
def pyStrip (s : String) : String :=
  String.mk (((s.toList.dropWhile isPySpace).reverse.dropWhile isPySpace).reverse)

/-! ### Calendar: shallow embedding of Python `datetime.date`

Python `date` objects are always valid calendar dates (the constructor
validates month and day).  Python additionally restricts years to
1..9999; that bound is immaterial to every claim here and is not modelled,
so the embedding is the proleptic Gregorian calendar over all integer
years. -/

def isLeap (y : ℤ) : Bool := (y % 4 == 0 && y % 100 != 0) || y % 400 == 0

/-- The extra day a leap year contributes, as an integer. -/
def leapDay (y : ℤ) : ℤ := if isLeap y then 1 else 0

theorem isLeap_iff (y : ℤ) : isLeap y = true ↔ (y % 4 = 0 ∧ y % 100 ≠ 0) ∨ y % 400 = 0 := by
  simp [isLeap]

theorem leapDay_cases (y : ℤ) :
    (leapDay y = 1 ∧ ((y % 4 = 0 ∧ y % 100 ≠ 0) ∨ y % 400 = 0)) ∨
    (leapDay y = 0 ∧ ¬ ((y % 4 = 0 ∧ y % 100 ≠ 0) ∨ y % 400 = 0)) := by
  unfold leapDay
  by_cases h : isLeap y = true
  · rw [if_pos h]; exact Or.inl ⟨rfl, (isLeap_iff y).mp h⟩
  · rw [if_neg h]; exact Or.inr ⟨rfl, fun hc => h ((isLeap_iff y).mpr hc)⟩

def daysInMonth (y m : ℤ) : ℤ :=
  if m = 2 then 28 + leapDay y
  else if m = 4 ∨ m = 6 ∨ m = 9 ∨ m = 11 then 30
  else 31

theorem daysInMonth_pos (y m : ℤ) : 1 ≤ daysInMonth y m := by
  have := leapDay_cases y
  unfold daysInMonth; split_ifs <;> omega

theorem daysInMonth_le (y m : ℤ) : daysInMonth y m ≤ 31 := by
  have := leapDay_cases y
  unfold daysInMonth; split_ifs <;> omega

structure Date where
  y : ℤ
  m : ℤ
  d : ℤ
  hm1 : 1 ≤ m
  hm2 : m ≤ 12
  hd1 : 1 ≤ d
  hd2 : d ≤ daysInMonth y m

theorem Date.ext' {a b : Date} (hy : a.y = b.y) (hm : a.m = b.m) (hd : a.d = b.d) :
    a = b := by
  cases a; cases b
  simp only at hy hm hd
  subst hy; subst hm; subst hd
  rfl

instance : DecidableEq Date := fun a b =>
  decidable_of_iff (a.y = b.y ∧ a.m = b.m ∧ a.d = b.d)
    ⟨fun ⟨h1, h2, h3⟩ => Date.ext' h1 h2 h3, fun h => by subst h; exact ⟨rfl, rfl, rfl⟩⟩

/-- Python `date` comparison: calendar (lexicographic) order. -/
def Date.le (a b : Date) : Prop :=
  a.y < b.y ∨ (a.y = b.y ∧ (a.m < b.m ∨ (a.m = b.m ∧ a.d ≤ b.d)))

def Date.lt (a b : Date) : Prop :=
  a.y < b.y ∨ (a.y = b.y ∧ (a.m < b.m ∨ (a.m = b.m ∧ a.d < b.d)))

instance : LE Date := ⟨Date.le⟩
instance : LT Date := ⟨Date.lt⟩

instance (a b : Date) : Decidable (a ≤ b) := by
  show Decidable (Date.le a b); unfold Date.le; infer_instance

instance (a b : Date) : Decidable (a < b) := by
  show Decidable (Date.lt a b); unfold Date.lt; infer_instance

/-- Days before January 1st of year `y` in the proleptic Gregorian
calendar, as counted by CPython's `date.toordinal` (day 1 = 0001-01-01). -/
def daysBeforeYear (y : ℤ) : ℤ :=
  365 * (y - 1) + (y - 1) / 4 - (y - 1) / 100 + (y - 1) / 400

/-- Days in year `y` before the first of month `m` (for `1 ≤ m ≤ 12`).
Closed form of CPython's `_DAYS_BEFORE_MONTH` table: it evaluates to
0, 31, 59+L, 90+L, 120+L, 151+L, 181+L, 212+L, 243+L, 273+L, 304+L, 334+L
for `m = 1..12`, where `L = leapDay y` (see `daysBeforeMonth_succ`). -/
def daysBeforeMonth (y m : ℤ) : ℤ :=
  (367 * m - 362) / 12 + (if m ≤ 2 then 0 else leapDay y - 2)

/-- CPython `date.toordinal`. -/
def Date.toordinal (a : Date) : ℤ :=
  daysBeforeYear a.y + daysBeforeMonth a.y a.m + a.d

theorem daysBeforeYear_succ (y : ℤ) :
    daysBeforeYear (y + 1) = daysBeforeYear y + 365 + leapDay y := by
  have := leapDay_cases y
  unfold daysBeforeYear
  omega

theorem daysBeforeMonth_succ (y m : ℤ) (h1 : 1 ≤ m) (h2 : m ≤ 11) :
    daysBeforeMonth y (m + 1) = daysBeforeMonth y m + daysInMonth y m := by
  have := leapDay_cases y
  unfold daysBeforeMonth daysInMonth
  interval_cases m <;> norm_num <;> omega

theorem daysBeforeMonth_nonneg (y : ℤ) {m : ℤ} (h1 : 1 ≤ m) : 0 ≤ daysBeforeMonth y m := by
  have := leapDay_cases y
  unfold daysBeforeMonth
  split_ifs <;> omega

theorem daysBeforeMonth_mono (y : ℤ) {m m' : ℤ} (h1 : 1 ≤ m) (hmm : m ≤ m')
    (h2 : m' ≤ 12) : daysBeforeMonth y m ≤ daysBeforeMonth y m' := by
  have := leapDay_cases y
  unfold daysBeforeMonth
  split_ifs <;> omega

theorem daysBeforeMonth_last (y m : ℤ) (h1 : 1 ≤ m) (h2 : m ≤ 12) :
    daysBeforeMonth y m + daysInMonth y m ≤ 365 + leapDay y := by
  have := leapDay_cases y
  unfold daysBeforeMonth daysInMonth
  split_ifs <;> omega

theorem daysBeforeYear_mono {y y' : ℤ} (h : y ≤ y') :
    daysBeforeYear y ≤ daysBeforeYear y' := by
  unfold daysBeforeYear
  omega

theorem toordinal_lt_of_lt {a b : Date} (h : a < b) : a.toordinal < b.toordinal := by
  rcases h with hy | ⟨hy, hm | ⟨hm, hd⟩⟩
  · -- strictly smaller year
    have hub : a.toordinal ≤ daysBeforeYear (a.y + 1) := by
      unfold Date.toordinal
      rw [daysBeforeYear_succ]
      have := daysBeforeMonth_last a.y a.m a.hm1 a.hm2
      have := a.hd2
      omega
    have hlb : daysBeforeYear b.y < b.toordinal := by
      unfold Date.toordinal
      have := daysBeforeMonth_nonneg b.y b.hm1
      have := b.hd1
      omega
    have := daysBeforeYear_mono (show a.y + 1 ≤ b.y by omega)
    omega
  · -- same year, strictly smaller month
    unfold Date.toordinal
    rw [hy]
    have hb2 := b.hm2
    have hstep := daysBeforeMonth_succ b.y a.m a.hm1 (by omega)
    have hmono := daysBeforeMonth_mono b.y (show (1:ℤ) ≤ a.m + 1 by have := a.hm1; omega)
      (show a.m + 1 ≤ b.m by omega) b.hm2
    have ha2 : a.d ≤ daysInMonth a.y a.m := a.hd2
    have := b.hd1
    rw [hy] at ha2
    omega
  · -- same year and month, smaller day
    unfold Date.toordinal
    rw [hy, hm]
    omega

theorem Date.le_total' (a b : Date) : a ≤ b ∨ b ≤ a := by
  show Date.le a b ∨ Date.le b a
  unfold Date.le
  omega

theorem Date.not_le {a b : Date} : ¬ a ≤ b ↔ b < a := by
  show ¬ Date.le a b ↔ Date.lt b a
  unfold Date.le Date.lt
  omega

theorem Date.lt_iff_le_and_ne {a b : Date} : a < b ↔ a ≤ b ∧ a ≠ b := by
  show Date.lt a b ↔ Date.le a b ∧ a ≠ b
  constructor
  · intro h
    refine ⟨by unfold Date.le at *; unfold Date.lt at h; omega, ?_⟩
    intro he; subst he
    unfold Date.lt at h; omega
  · rintro ⟨hle, hne⟩
    unfold Date.le at hle
    unfold Date.lt
    rcases hle with h | ⟨hy, h | ⟨hm, hd⟩⟩
    · omega
    · omega
    · rcases lt_or_eq_of_le hd with h | h
      · omega
      · exact absurd (Date.ext' hy hm h) hne

theorem toordinal_le_of_le {a b : Date} (h : a ≤ b) : a.toordinal ≤ b.toordinal := by
  by_cases he : a = b
  · subst he; rfl
  · exact le_of_lt (toordinal_lt_of_lt (Date.lt_iff_le_and_ne.mpr ⟨h, he⟩))

theorem lt_of_toordinal_lt {a b : Date} (h : a.toordinal < b.toordinal) : a < b := by
  rcases Date.le_total' b a with hba | hab
  · exact absurd (toordinal_le_of_le hba) (by omega)
  · rcases eq_or_ne a b with he | hne
    · subst he; omega
    · exact Date.lt_iff_le_and_ne.mpr ⟨hab, hne⟩

theorem le_of_toordinal_le {a b : Date} (h : a.toordinal ≤ b.toordinal) : a ≤ b := by
  rcases Date.le_total' a b with hab | hba
  · exact hab
  · by_cases he : b = a
    · subst he; exact hba
    · exact absurd (toordinal_lt_of_lt (Date.lt_iff_le_and_ne.mpr ⟨hba, he⟩)) (by omega)

theorem toordinal_inj {a b : Date} (h : a.toordinal = b.toordinal) : a = b := by
  by_contra hne
  rcases Date.le_total' a b with hab | hba
  · exact absurd (toordinal_lt_of_lt (Date.lt_iff_le_and_ne.mpr ⟨hab, hne⟩)) (by omega)
  · exact absurd (toordinal_lt_of_lt (Date.lt_iff_le_and_ne.mpr ⟨hba, Ne.symm hne⟩)) (by omega)

theorem Date.le_of_lt' {a b : Date} (h : a < b) : a ≤ b := by
  have h' : Date.lt a b := h
  show Date.le a b
  unfold Date.lt at h'
  unfold Date.le
  omega

theorem daysInMonth_twelve (y : ℤ) : daysInMonth y 12 = 31 := by
  unfold daysInMonth; norm_num

theorem daysBeforeMonth_one (y : ℤ) : daysBeforeMonth y 1 = 0 := by
  unfold daysBeforeMonth; norm_num

theorem daysBeforeMonth_twelve (y : ℤ) : daysBeforeMonth y 12 = 334 + leapDay y := by
  unfold daysBeforeMonth; norm_num; omega

/-- Python `date + timedelta(days=1)`. -/
def Date.nextDay (a : Date) : Date :=
  if h1 : a.d < daysInMonth a.y a.m then
    ⟨a.y, a.m, a.d + 1, a.hm1, a.hm2, by have := a.hd1; omega, by omega⟩
  else if h2 : a.m < 12 then
    ⟨a.y, a.m + 1, 1, by have := a.hm1; omega, by omega, le_refl 1, daysInMonth_pos _ _⟩
  else
    ⟨a.y + 1, 1, 1, le_refl 1, by norm_num, le_refl 1, daysInMonth_pos _ _⟩

/-- Python `date - timedelta(days=1)`. -/
def Date.prevDay (a : Date) : Date :=
  if h1 : 1 < a.d then
    ⟨a.y, a.m, a.d - 1, a.hm1, a.hm2, by omega, by have := a.hd2; omega⟩
  else if h2 : 1 < a.m then
    ⟨a.y, a.m - 1, daysInMonth a.y (a.m - 1), by omega, by have := a.hm2; omega,
      daysInMonth_pos _ _, le_refl _⟩
  else
    ⟨a.y - 1, 12, 31, by norm_num, le_refl _, by norm_num, by rw [daysInMonth_twelve]⟩

theorem toordinal_nextDay (a : Date) : a.nextDay.toordinal = a.toordinal + 1 := by
  unfold Date.nextDay
  split_ifs with h1 h2
  · unfold Date.toordinal
    dsimp only
    omega
  · have hstep := daysBeforeMonth_succ a.y a.m a.hm1 (by omega)
    have hd2 := a.hd2
    unfold Date.toordinal
    dsimp only
    omega
  · have hm12 : a.m = 12 := by have := a.hm2; omega
    have hd31 : a.d = 31 := by
      have hle := a.hd2; rw [hm12, daysInMonth_twelve] at hle
      rw [hm12, daysInMonth_twelve] at h1; omega
    have hy := daysBeforeYear_succ a.y
    unfold Date.toordinal
    dsimp only
    rw [daysBeforeMonth_one, hm12, daysBeforeMonth_twelve]
    omega

theorem nextDay_prevDay (a : Date) : a.prevDay.nextDay = a := by
  unfold Date.prevDay
  split_ifs with h1 h2
  · unfold Date.nextDay
    dsimp only
    rw [dif_pos (by have := a.hd2; omega)]
    exact Date.ext' rfl rfl (by show a.d - 1 + 1 = a.d; omega)
  · unfold Date.nextDay
    dsimp only
    rw [dif_neg (by omega), dif_pos (by show a.m - 1 < 12; have := a.hm2; omega)]
    refine Date.ext' rfl (by show a.m - 1 + 1 = a.m; omega) ?_
    show (1 : ℤ) = a.d
    have := a.hd1; omega
  · have hm1 : a.m = 1 := by have := a.hm1; omega
    have hd1 : a.d = 1 := by have := a.hd1; omega
    unfold Date.nextDay
    dsimp only
    rw [dif_neg (by show ¬ (31 : ℤ) < daysInMonth (a.y - 1) 12; rw [daysInMonth_twelve]; omega),
      dif_neg (by show ¬ (12 : ℤ) < 12; omega)]
    refine Date.ext' (by show a.y - 1 + 1 = a.y; omega) ?_ ?_
    · show (1 : ℤ) = a.m; omega
    · show (1 : ℤ) = a.d; omega

theorem toordinal_prevDay (a : Date) : a.prevDay.toordinal = a.toordinal - 1 := by
  have h := toordinal_nextDay a.prevDay
  rw [nextDay_prevDay] at h
  omega

/-- Python `date + timedelta(days=k)` for `k ≥ 0`. -/
def Date.addDays (a : Date) : ℕ → Date
  | 0 => a
  | k + 1 => (a.addDays k).nextDay

/-- Python `date - timedelta(days=k)` for `k ≥ 0`. -/
def Date.subDays (a : Date) : ℕ → Date
  | 0 => a
  | k + 1 => (a.subDays k).prevDay

theorem toordinal_addDays (a : Date) (k : ℕ) :
    (a.addDays k).toordinal = a.toordinal + k := by
  induction k with
  | zero => simp [Date.addDays]
  | succ n ih => rw [Date.addDays, toordinal_nextDay, ih]; push_cast; ring

theorem toordinal_subDays (a : Date) (k : ℕ) :
    (a.subDays k).toordinal = a.toordinal - k := by
  induction k with
  | zero => simp [Date.subDays]
  | succ n ih => rw [Date.subDays, toordinal_prevDay, ih]; push_cast; ring

/-- CPython `date.weekday()`: Monday is 0. -/
def Date.weekday (a : Date) : ℤ := (a.toordinal + 6) % 7

theorem weekday_nonneg (a : Date) : 0 ≤ a.weekday :=
  Int.emod_nonneg _ (by norm_num)

theorem weekday_lt (a : Date) : a.weekday < 7 :=
  Int.emod_lt_of_pos _ (by norm_num)

/-- `d - timedelta(days=d.weekday())`: the Monday of `d`'s week. -/
def mondayOf (a : Date) : Date := a.subDays a.weekday.toNat

theorem toordinal_mondayOf (a : Date) :
    (mondayOf a).toordinal = a.toordinal - (a.toordinal + 6) % 7 := by
  unfold mondayOf
  rw [toordinal_subDays]
  have h := weekday_nonneg a
  rw [Int.toNat_of_nonneg h]
  rfl

theorem weekday_mondayOf (a : Date) : (mondayOf a).weekday = 0 := by
  unfold Date.weekday
  rw [toordinal_mondayOf]
  omega

theorem mondayOf_le (a : Date) : mondayOf a ≤ a := by
  apply le_of_toordinal_le
  rw [toordinal_mondayOf]
  have := Int.emod_nonneg (a.toordinal + 6) (b := 7) (by norm_num)
  omega

theorem mondayOf_mono {a b : Date} (h : a ≤ b) : mondayOf a ≤ mondayOf b := by
  apply le_of_toordinal_le
  rw [toordinal_mondayOf, toordinal_mondayOf]
  have := toordinal_le_of_le h
  omega

/-! ### Python `datetime.datetime`: a calendar date plus a second-of-day. -/

structure DateTime where
  date : Date
  sec : ℚ

/-- Python datetime comparison: date first, then time of day. -/
def DateTime.le (a b : DateTime) : Prop :=
  a.date < b.date ∨ (a.date = b.date ∧ a.sec ≤ b.sec)

instance : LE DateTime := ⟨DateTime.le⟩

instance (a b : DateTime) : Decidable (a ≤ b) := by
  show Decidable (DateTime.le a b); unfold DateTime.le; infer_instance

theorem DateTime.date_le_of_le {a b : DateTime} (h : a ≤ b) : a.date ≤ b.date := by
  rcases h with h | ⟨h, _⟩
  · exact Date.le_of_lt' h
  · rw [h]
    rcases Date.le_total' b.date b.date with h' | h' <;> exact h'

/-- Signed difference of two datetimes in seconds
(Python `(a - b).total_seconds()`). -/
def dtSubSeconds (a b : DateTime) : ℚ :=
  86400 * ((a.date.toordinal - b.date.toordinal : ℤ) : ℚ) + (a.sec - b.sec)

/-! ### Time bucketing (`_iter_buckets`, `_bucket_key`)

The Python source walks a cursor with a `while cur <= end` loop for each
interval; each loop becomes a well-founded recursive function below. -/

/-- `date(d.year, d.month, 1)`: first of `d`'s month. -/
def mk1 (d : Date) : Date := ⟨d.y, d.m, 1, d.hm1, d.hm2, le_refl 1, daysInMonth_pos _ _⟩

/-- `date(cur.year + (1 if cur.month == 12 else 0),
          1 if cur.month == 12 else cur.month + 1, 1)`. -/
def monthSucc (c : Date) : Date :=
  if h : c.m = 12 then ⟨c.y + 1, 1, 1, le_refl 1, by norm_num, le_refl 1, daysInMonth_pos _ _⟩
  else ⟨c.y, c.m + 1, 1, by have := c.hm1; omega, by have := c.hm2; omega,
    le_refl 1, daysInMonth_pos _ _⟩

/-- Linear month index, used only as a termination / ordering measure. -/
def rankM (c : Date) : ℤ := 12 * c.y + c.m

theorem rankM_monthSucc (c : Date) : rankM (monthSucc c) = rankM c + 1 := by
  unfold monthSucc rankM
  split_ifs with h <;> dsimp only <;> omega

theorem monthSucc_d (c : Date) : (monthSucc c).d = 1 := by
  unfold monthSucc; split_ifs <;> rfl

theorem rankM_le_of_le {a b : Date} (h : a ≤ b) : rankM a ≤ rankM b := by
  have h' : Date.le a b := h
  have := a.hm1; have := a.hm2; have := b.hm1; have := b.hm2
  unfold Date.le at h'
  unfold rankM
  omega

theorem Date.le_iff_rankM {a b : Date} (hd : a.d = b.d) :
    a ≤ b ↔ rankM a ≤ rankM b := by
  have := a.hm1; have := a.hm2; have := b.hm1; have := b.hm2
  show Date.le a b ↔ _
  unfold Date.le rankM
  omega

theorem eq_of_rankM_eq {a b : Date} (hd : a.d = b.d) (h : rankM a = rankM b) : a = b := by
  have := a.hm1; have := a.hm2; have := b.hm1; have := b.hm2
  unfold rankM at h
  exact Date.ext' (by omega) (by omega) hd

theorem Date.le_refl' (a : Date) : a ≤ a := by
  show Date.le a a; unfold Date.le; omega

theorem Date.le_trans' {a b c : Date} (h1 : a ≤ b) (h2 : b ≤ c) : a ≤ c :=
  le_of_toordinal_le ((toordinal_le_of_le h1).trans (toordinal_le_of_le h2))

/-- The `month` branch of `_iter_buckets`. -/
def monthGo (cur e : Date) : List Date :=
  if cur ≤ e then cur :: monthGo (monthSucc cur) e else []
termination_by (rankM e - rankM cur + 1).toNat
decreasing_by
  simp_wf
  have h1 := rankM_le_of_le (by assumption : cur ≤ e)
  have h2 := rankM_monthSucc cur
  omega

/-- The `week` branch of `_iter_buckets` (`cur + timedelta(days=7)`). -/
def weekGo (cur e : Date) : List Date :=
  if cur ≤ e then cur :: weekGo (cur.addDays 7) e else []
termination_by (e.toordinal - cur.toordinal + 1).toNat
decreasing_by
  simp_wf
  have h1 := toordinal_le_of_le (by assumption : cur ≤ e)
  have h2 := toordinal_addDays cur 7
  omega

/-- The `day` branch of `_iter_buckets` (`cur + timedelta(days=1)`). -/
def dayGo (cur e : Date) : List Date :=
  if cur ≤ e then cur :: dayGo cur.nextDay e else []
termination_by (e.toordinal - cur.toordinal + 1).toNat
decreasing_by
  simp_wf
  have h1 := toordinal_le_of_le (by assumption : cur ≤ e)
  have h2 := toordinal_nextDay cur
  omega

def _iter_buckets (date_from date_to : DateTime) (interval : String) : List Date :=
  if interval = "month" then monthGo (mk1 date_from.date) (mk1 date_to.date)
  else if interval = "week" then weekGo (mondayOf date_from.date) (mondayOf date_to.date)
  else dayGo date_from.date date_to.date

def _bucket_key (dt : DateTime) (interval : String) : Date :=
  if interval = "month" then mk1 dt.date
  else if interval = "week" then mondayOf dt.date
  else dt.date

/-! #### Behaviour of the three bucket loops -/

theorem Date.le_monthSucc (c : Date) : c ≤ monthSucc c := by
  show Date.le c (monthSucc c)
  have := c.hm1; have := c.hm2; have := c.hd1
  unfold monthSucc
  split_ifs with h <;> unfold Date.le <;> dsimp only <;> omega

theorem Date.lt_monthSucc (c : Date) : c < monthSucc c := by
  show Date.lt c (monthSucc c)
  have := c.hm1; have := c.hm2; have := c.hd1
  unfold monthSucc
  split_ifs with h <;> unfold Date.lt <;> dsimp only <;> omega

theorem Date.le_nextDay (c : Date) : c ≤ c.nextDay :=
  le_of_toordinal_le (by rw [toordinal_nextDay]; omega)

theorem Date.lt_nextDay (c : Date) : c < c.nextDay :=
  lt_of_toordinal_lt (by rw [toordinal_nextDay]; omega)

theorem Date.le_addDays (c : Date) (k : ℕ) : c ≤ c.addDays k :=
  le_of_toordinal_le (by rw [toordinal_addDays]; omega)

theorem Date.lt_addDays (c : Date) (k : ℕ) (hk : 0 < k) : c < c.addDays k :=
  lt_of_toordinal_lt (by rw [toordinal_addDays]; omega)

theorem monthGo_eq_nil_iff (cur e : Date) : monthGo cur e = [] ↔ ¬ cur ≤ e := by
  rw [monthGo.eq_def]
  split_ifs with h <;> simp [h]

theorem weekGo_eq_nil_iff (cur e : Date) : weekGo cur e = [] ↔ ¬ cur ≤ e := by
  rw [weekGo.eq_def]
  split_ifs with h <;> simp [h]

theorem dayGo_eq_nil_iff (cur e : Date) : dayGo cur e = [] ↔ ¬ cur ≤ e := by
  rw [dayGo.eq_def]
  split_ifs with h <;> simp [h]

theorem monthGo_head (cur e : Date) (h : cur ≤ e) :
    (monthGo cur e).head? = some cur := by
  rw [monthGo.eq_def, if_pos h]; rfl

theorem weekGo_head (cur e : Date) (h : cur ≤ e) :
    (weekGo cur e).head? = some cur := by
  rw [weekGo.eq_def, if_pos h]; rfl

theorem dayGo_head (cur e : Date) (h : cur ≤ e) :
    (dayGo cur e).head? = some cur := by
  rw [dayGo.eq_def, if_pos h]; rfl

theorem monthGo_chain_step (cur e : Date) :
    (monthGo cur e).Chain' (fun a b => b = monthSucc a) := by
  induction cur, e using monthGo.induct with
  | case1 cur e h ih =>
    rw [monthGo.eq_def, if_pos h, List.chain'_cons']
    refine ⟨?_, ih⟩
    intro y hy
    rw [monthGo.eq_def] at hy
    split_ifs at hy with h2
    · simp only [List.head?_cons, Option.mem_def, Option.some.injEq] at hy
      exact hy.symm
    · simp at hy
  | case2 cur e h => rw [monthGo.eq_def, if_neg h]; exact List.chain'_nil

theorem weekGo_chain_step (cur e : Date) :
    (weekGo cur e).Chain' (fun a b => b = a.addDays 7) := by
  induction cur, e using weekGo.induct with
  | case1 cur e h ih =>
    rw [weekGo.eq_def, if_pos h, List.chain'_cons']
    refine ⟨?_, ih⟩
    intro y hy
    rw [weekGo.eq_def] at hy
    split_ifs at hy with h2
    · simp only [List.head?_cons, Option.mem_def, Option.some.injEq] at hy
      exact hy.symm
    · simp at hy
  | case2 cur e h => rw [weekGo.eq_def, if_neg h]; exact List.chain'_nil

theorem dayGo_chain_step (cur e : Date) :
    (dayGo cur e).Chain' (fun a b => b = a.nextDay) := by
  induction cur, e using dayGo.induct with
  | case1 cur e h ih =>
    rw [dayGo.eq_def, if_pos h, List.chain'_cons']
    refine ⟨?_, ih⟩
    intro y hy
    rw [dayGo.eq_def] at hy
    split_ifs at hy with h2
    · simp only [List.head?_cons, Option.mem_def, Option.some.injEq] at hy
      exact hy.symm
    · simp at hy
  | case2 cur e h => rw [dayGo.eq_def, if_neg h]; exact List.chain'_nil

theorem monthGo_mem_bounds (cur e : Date) :
    ∀ x ∈ monthGo cur e, cur ≤ x ∧ x ≤ e := by
  induction cur, e using monthGo.induct with
  | case1 cur e h ih =>
    rw [monthGo.eq_def, if_pos h]
    intro x hx
    rcases List.mem_cons.mp hx with rfl | hx'
    · exact ⟨Date.le_refl' x, h⟩
    · obtain ⟨h1, h2⟩ := ih x hx'
      exact ⟨Date.le_trans' (Date.le_monthSucc cur) h1, h2⟩
  | case2 cur e h =>
    rw [monthGo.eq_def, if_neg h]
    intro x hx
    simp at hx

theorem weekGo_mem_bounds (cur e : Date) :
    ∀ x ∈ weekGo cur e, cur ≤ x ∧ x ≤ e := by
  induction cur, e using weekGo.induct with
  | case1 cur e h ih =>
    rw [weekGo.eq_def, if_pos h]
    intro x hx
    rcases List.mem_cons.mp hx with rfl | hx'
    · exact ⟨Date.le_refl' x, h⟩
    · obtain ⟨h1, h2⟩ := ih x hx'
      exact ⟨Date.le_trans' (Date.le_addDays cur 7) h1, h2⟩
  | case2 cur e h =>
    rw [weekGo.eq_def, if_neg h]
    intro x hx
    simp at hx

theorem dayGo_mem_bounds (cur e : Date) :
    ∀ x ∈ dayGo cur e, cur ≤ x ∧ x ≤ e := by
  induction cur, e using dayGo.induct with
  | case1 cur e h ih =>
    rw [dayGo.eq_def, if_pos h]
    intro x hx
    rcases List.mem_cons.mp hx with rfl | hx'
    · exact ⟨Date.le_refl' x, h⟩
    · obtain ⟨h1, h2⟩ := ih x hx'
      exact ⟨Date.le_trans' (Date.le_nextDay cur) h1, h2⟩
  | case2 cur e h =>
    rw [dayGo.eq_def, if_neg h]
    intro x hx
    simp at hx

theorem dayGo_getLast (cur e : Date) (h : cur ≤ e) :
    (dayGo cur e).getLast? = some e := by
  induction cur, e using dayGo.induct with
  | case1 cur e h' ih =>
    rw [dayGo.eq_def, if_pos h']
    by_cases h2 : cur.nextDay ≤ e
    · have hih := ih h2
      rcases hx : dayGo cur.nextDay e with _ | ⟨b, t⟩
      · exact absurd ((dayGo_eq_nil_iff _ _).mp hx) (by simp [h2])
      · rw [hx] at hih
        rw [List.getLast?_cons_cons]
        exact hih
    · have hlt : e < cur.nextDay := Date.not_le.mp h2
      have ho1 := toordinal_le_of_le h'
      have ho2 := toordinal_lt_of_lt hlt
      have ho3 := toordinal_nextDay cur
      have : cur = e := toordinal_inj (by omega)
      rw [(dayGo_eq_nil_iff _ _).mpr h2, this]
      rfl
  | case2 cur e h' => exact absurd h h'

theorem weekGo_getLast (cur e : Date) (h : cur ≤ e)
    (hmod : (e.toordinal - cur.toordinal) % 7 = 0) :
    (weekGo cur e).getLast? = some e := by
  induction cur, e using weekGo.induct with
  | case1 cur e h' ih =>
    rw [weekGo.eq_def, if_pos h']
    by_cases h2 : cur.addDays 7 ≤ e
    · have hih := ih h2 (by rw [toordinal_addDays]; push_cast; omega)
      rcases hx : weekGo (cur.addDays 7) e with _ | ⟨b, t⟩
      · exact absurd ((weekGo_eq_nil_iff _ _).mp hx) (by simp [h2])
      · rw [hx] at hih
        rw [List.getLast?_cons_cons]
        exact hih
    · have hlt : e < cur.addDays 7 := Date.not_le.mp h2
      have ho1 := toordinal_le_of_le h'
      have ho2 := toordinal_lt_of_lt hlt
      have ho3 := toordinal_addDays cur 7
      have : cur = e := toordinal_inj (by push_cast at ho3; omega)
      rw [(weekGo_eq_nil_iff _ _).mpr h2, this]
      rfl
  | case2 cur e h' => exact absurd h h'

theorem monthGo_getLast (cur e : Date) (h : cur ≤ e)
    (hc : cur.d = 1) (he : e.d = 1) :
    (monthGo cur e).getLast? = some e := by
  induction cur, e using monthGo.induct with
  | case1 cur e h' ih =>
    rw [monthGo.eq_def, if_pos h']
    by_cases h2 : monthSucc cur ≤ e
    · have hih := ih h2 (monthSucc_d cur) he
      rcases hx : monthGo (monthSucc cur) e with _ | ⟨b, t⟩
      · exact absurd ((monthGo_eq_nil_iff _ _).mp hx) (by simp [h2])
      · rw [hx] at hih
        rw [List.getLast?_cons_cons]
        exact hih
    · have hr1 := rankM_le_of_le h'
      have hr2 : ¬ rankM (monthSucc cur) ≤ rankM e := by
        intro hcon
        exact h2 ((Date.le_iff_rankM (by rw [monthSucc_d cur, he])).mpr hcon)
      have hr3 := rankM_monthSucc cur
      have : cur = e := eq_of_rankM_eq (by rw [hc, he]) (by omega)
      rw [(monthGo_eq_nil_iff _ _).mpr h2, this]
      rfl
  | case2 cur e h' => exact absurd h h'

theorem monthGo_mem_d1 (cur e : Date) (hc : cur.d = 1) :
    ∀ x ∈ monthGo cur e, x.d = 1 := by
  induction cur, e using monthGo.induct with
  | case1 cur e h ih =>
    rw [monthGo.eq_def, if_pos h]
    intro x hx
    rcases List.mem_cons.mp hx with rfl | hx'
    · exact hc
    · exact ih (monthSucc_d cur) x hx'
  | case2 cur e h =>
    rw [monthGo.eq_def, if_neg h]
    intro x hx
    simp at hx

theorem weekGo_mem_mod7 (cur e : Date) :
    ∀ x ∈ weekGo cur e, x.toordinal % 7 = cur.toordinal % 7 := by
  induction cur, e using weekGo.induct with
  | case1 cur e h ih =>
    rw [weekGo.eq_def, if_pos h]
    intro x hx
    rcases List.mem_cons.mp hx with rfl | hx'
    · rfl
    · have := ih x hx'
      rw [this, toordinal_addDays]
      push_cast
      omega
  | case2 cur e h =>
    rw [weekGo.eq_def, if_neg h]
    intro x hx
    simp at hx

/-! #### Alignment helpers used to state the bucketing claims -/

/-- The aligned series start the spec assigns to each interval. -/
def alignedStart (interval : String) (d : Date) : Date :=
  if interval = "month" then mk1 d
  else if interval = "week" then mondayOf d
  else d

/-- The bucket-to-bucket step of each interval. -/
def bucketStep (interval : String) (d : Date) : Date :=
  if interval = "month" then monthSucc d
  else if interval = "week" then d.addDays 7
  else d.nextDay

theorem mk1_le (d : Date) : mk1 d ≤ d := by
  show Date.le (mk1 d) d
  have := d.hd1
  unfold mk1 Date.le
  dsimp only
  omega

theorem mk1_mono {a b : Date} (h : a ≤ b) : mk1 a ≤ mk1 b := by
  have h' : Date.le a b := h
  show Date.le (mk1 a) (mk1 b)
  unfold Date.le at h'
  unfold mk1 Date.le
  dsimp only
  omega

theorem mk1_d (d : Date) : (mk1 d).d = 1 := rfl

theorem mk1_eq_self {a : Date} (h : a.d = 1) : mk1 a = a :=
  Date.ext' rfl rfl h.symm

theorem mondayOf_eq_self {a : Date} (h : a.weekday = 0) : mondayOf a = a := by
  unfold mondayOf
  rw [h]
  rfl

theorem weekday_eq_zero_of_mod7 {a b : Date} (hb : b.weekday = 0)
    (hmod : a.toordinal % 7 = b.toordinal % 7) : a.weekday = 0 := by
  unfold Date.weekday at hb ⊢
  omega

/-! ### Completion classifier (`_is_done` and its SQL variants) -/

def DONE_KEYWORDS : List String :=
  ["done", "closed", "resolve", "resolved", "finish", "finished", "complete", "completed",
   "完成", "已完成", "結案", "已結案", "關閉", "已關閉", "已處理", "已解決"]

def _DONE_KEYWORDS_LOWER : List String := DONE_KEYWORDS.map pyLower

/-- `_is_done`: fuzzy keyword containment on the lowercased status. -/
def _is_done (status : Option String) : Bool :=
  let s := pyLower (status.getD "")
  _DONE_KEYWORDS_LOWER.any (fun k => strContains s k)

/-- `_done_sql_expr()`: `OR` of `lower(ticket_status) LIKE :KW:` tests.
A SQL `NULL` status satisfies no `LIKE`, so the row is filtered out. -/
def _done_sql_expr (status : Option String) : Bool :=
  match status with
  | none => false
  | some s => _DONE_KEYWORDS_LOWER.any (fun k => strContains (pyLower s) k)

/-- `~lower(ticket_status).in_(_DONE_KEYWORDS_LOWER)` of
`_query_project_progress`: exact IN-list membership, negated.  A SQL `NULL`
status makes the whole predicate `NULL`, which filters the row out. -/
def sqlNotInDone (status : Option String) : Bool :=
  match status with
  | none => false
  | some s => ! _DONE_KEYWORDS_LOWER.contains (pyLower s)

/-! ### SLA rules (`SLA_RULES_DEFAULT`, `_compose_rules`, `_target_hours`) -/

/-- A query-string override value: either a value `int()` accepts
(with its parse) or one on which `int()` raises. -/
inductive OverrideVal where
  | intval (n : ℤ)
  | malformed

/-- The five per-tier override parameters a report request may carry. -/
structure SlaParams where
  p1h : Option OverrideVal
  p2h : Option OverrideVal
  p3h : Option OverrideVal
  p4h : Option OverrideVal
  defh : Option OverrideVal

def SLA_RULES_DEFAULT : List (String × ℤ) :=
  [("p1", 4), ("critical", 4), ("urgent", 4),
   ("p2", 8), ("high", 8),
   ("p3", 24), ("medium", 24),
   ("p4", 72), ("low", 72),
   ("__default__", 24)]

/-- Python dict assignment `d[k] = v`: replace in place, else append. -/
def dictSet {β : Type} : List (String × β) → String → β → List (String × β)
  | [], k, v => [(k, v)]
  | (k', v') :: rest, k, v =>
    if k' = k then (k, v) :: rest else (k', v') :: dictSet rest k v

/-- One iteration of the override loop:
`try: rules[norm] = max(0, int(v)) except: pass` when `v is not None`. -/
def applyOverride (rules : List (String × ℤ)) (norm : String)
    (v : Option OverrideVal) : List (String × ℤ) :=
  match v with
  | none => rules
  | some (OverrideVal.intval n) => dictSet rules norm (max 0 n)
  | some OverrideVal.malformed => rules

/-- `_compose_rules_from_params` of `reports_sla.py`. -/
def _compose_rules_from_params (params : SlaParams) : List (String × ℤ) :=
  applyOverride (applyOverride (applyOverride (applyOverride (applyOverride
    SLA_RULES_DEFAULT "p1" params.p1h) "p2" params.p2h) "p3" params.p3h)
    "p4" params.p4h) "__default__" params.defh

/-- `_compose_rules` of `reports_sla_overdue.py` (identical body). -/
def _compose_rules (params : SlaParams) : List (String × ℤ) :=
  applyOverride (applyOverride (applyOverride (applyOverride (applyOverride
    SLA_RULES_DEFAULT "p1" params.p1h) "p2" params.p2h) "p3" params.p3h)
    "p4" params.p4h) "__default__" params.defh

/-- `_normalize_priority` / `_norm_pri`: `(s or "").strip().lower()`. -/
def _normalize_priority (s : Option String) : String :=
  pyLower (pyStrip (s.getD ""))

/-- The fixed alias table of `_target_hours`. -/
def PRIORITY_ALIAS : List (String × String) :=
  [("critical", "p1"), ("urgent", "p1"), ("high", "p2"), ("medium", "p3"),
   ("normal", "p3"), ("standard", "p3"), ("low", "p4")]

/-- `_target_hours(priority, rules)`.  `none` models the `KeyError` Python
would raise if `rules` lacked the reached key (composed rulesets never do;
see the resolution-totality theorem). -/
def _target_hours (priority : Option String) (rules : List (String × ℤ)) :
    Option ℤ :=
  let p := _normalize_priority priority
  match rules.lookup p with
  | some h => some h
  | none =>
    match PRIORITY_ALIAS.lookup p with
    | some a =>
      match rules.lookup a with
      | some h => some h
      | none => rules.lookup "__default__"
    | none => rules.lookup "__default__"

/-! ### Percentile utilities -/

/-- `_percentile` of `_query_efficiency` (`reports_ticket.py`). -/
def _percentile (values : List ℚ) (p : ℚ) : ℚ :=
  if values = [] then 0
  else
    let s := List.insertionSort (· ≤ ·) values
    let k : ℚ := ((s.length : ℚ) - 1) * p
    let f : ℤ := intTrunc k
    let c : ℤ := min (f + 1) ((s.length : ℤ) - 1)
    if f = c then s.getD (intTrunc k).toNat 0
    else s.getD f.toNat 0 + (s.getD c.toNat 0 - s.getD f.toNat 0) * (k - (f : ℚ))

/-- `_pctile` of `_query_projects_overview` (`reports_ticket.py`): the same
algorithm, its equal-index branch written as `s[f]`. -/
def _pctile (v : List ℚ) (p : ℚ) : ℚ :=
  if v = [] then 0
  else
    let s := List.insertionSort (· ≤ ·) v
    let k : ℚ := ((s.length : ℚ) - 1) * p
    let f : ℤ := intTrunc k
    let c : ℤ := min (f + 1) ((s.length : ℤ) - 1)
    if f = c then s.getD f.toNat 0
    else s.getD f.toNat 0 + (s.getD c.toNat 0 - s.getD f.toNat 0) * (k - (f : ℚ))

/-! ### Ticket rows

One projection of `pd_ticket_master` serves every modelled query.  Columns
declared `nullable=False` in the schema (`ticket_no`, `ticket_name`,
`ticket_priority`, `ticket_status`, `project_sid`, `create_dt`, `status`)
are plain fields; nullable ones (`update_dt`, `ticket_type`) are `Option`.
The SQL date-range / project / status filters and `ORDER BY` / `LIMIT`
clauses run in the collaborator (ticket store); each aggregation function
receives the resulting row list. -/

structure PDTicketRow where
  ticket_sid : ℤ
  ticket_no : String
  ticket_name : String
  ticket_priority : String
  ticket_status : String
  project_sid : ℤ
  ticket_type : Option ℤ
  create_dt : DateTime
  update_dt : Option DateTime
  status : ℤ

structure PDTypeRow where
  type_sid : ℤ
  type_name : String
  type_group : String
  status : ℤ

/-- Zero-padded decimal rendering, for `strftime` fields. -/
def padNum (w : ℕ) (n : ℤ) : String :=
  let s := toString n.natAbs
  let pad := String.mk (List.replicate (w - s.length) '0')
  (if n < 0 then "-" else "") ++ pad ++ s

/-- `dt.strftime("%Y-%m-%d %H:%M")`. -/
def fmtYMDHM (dt : DateTime) : String :=
  let hh : ℤ := ⌊dt.sec / 3600⌋
  let mi : ℤ := ⌊(dt.sec - 3600 * hh) / 60⌋
  padNum 4 dt.date.y ++ "-" ++ padNum 2 dt.date.m ++ "-" ++ padNum 2 dt.date.d ++
    " " ++ padNum 2 hh ++ ":" ++ padNum 2 mi

/-- The bucket-index dict `idx = {b: i for i, b in enumerate(bucket_starts)}`
(for a repeated key the later index wins, as in a Python dict
comprehension; bucket lists are in fact duplicate-free). -/
def idxOf (bs : List Date) (b : Date) : Option ℕ :=
  ((bs.enum.filter (fun p => p.2 = b)).getLast?).map Prod.fst

/-- `series[i] += 1` guarded by `if bucket in idx`. -/
def bumpAt (l : List ℕ) (o : Option ℕ) : List ℕ :=
  match o with
  | some i => l.set i (l.getD i 0 + 1)
  | none => l

/-- Python `d.get(k, 0)` on a counter dict. -/
def dictGetNat (l : List (String × ℕ)) (k : String) : ℕ := (l.lookup k).getD 0

/-! ### Achievement Aggregator (`_query_sla_achievement`, `reports_sla.py`) -/

structure SlaSample where
  ticket_no : String
  ticket_name : String
  priority : String
  created_at : String
  resolved_at : String
  target_h : ℤ
  tat_h : ℚ
  overdue_h : ℚ

structure AchState where
  closed : ℕ
  achieved_closed : ℕ
  breached_closed : ℕ
  opened : ℕ
  open_within : ℕ
  open_breach : ℕ
  closed_ach_series : List ℕ
  closed_bre_series : List ℕ
  pr_keys : List String
  per_pr_ach : List (String × ℕ)
  per_pr_bre : List (String × ℕ)
  samples : List SlaSample

/-- `if pr not in pr_keys: pr_keys.append(pr)`. -/
def notePr (st : AchState) (pr : String) : AchState :=
  if pr ∈ st.pr_keys then st else { st with pr_keys := st.pr_keys ++ [pr] }

/-- One iteration of the row loop of `_query_sla_achievement`.
`ticket_priority or "未設定"` is the empty-string test since the column is
non-nullable; `r.create_dt` is always present (`nullable=False`), so the
`if r.create_dt else 0.0` guards of the source are dropped. -/
def achStep (rules : List (String × ℤ)) (bucket_starts : List Date)
    (interval : String) (now : DateTime) (st : AchState) (r : PDTicketRow) :
    AchState :=
  let pr0 := _normalize_priority (some r.ticket_priority)
  let pr := if pr0 = "" then "未設定" else pr0
  let st1 := notePr st pr
  let tgt : ℤ := (_target_hours (some r.ticket_priority) rules).getD 0
  match r.update_dt, _is_done (some r.ticket_status) with
  | some udt, true =>
    let tat_hours : ℚ := max 0 (dtSubSeconds udt r.create_dt / 3600)
    let bucket := _bucket_key udt interval
    if tat_hours ≤ (tgt : ℚ) then
      { st1 with
        closed := st1.closed + 1,
        achieved_closed := st1.achieved_closed + 1,
        closed_ach_series := bumpAt st1.closed_ach_series (idxOf bucket_starts bucket),
        per_pr_ach := dictSet st1.per_pr_ach pr (dictGetNat st1.per_pr_ach pr + 1) }
    else
      { st1 with
        closed := st1.closed + 1,
        breached_closed := st1.breached_closed + 1,
        closed_bre_series := bumpAt st1.closed_bre_series (idxOf bucket_starts bucket),
        per_pr_bre := dictSet st1.per_pr_bre pr (dictGetNat st1.per_pr_bre pr + 1),
        samples := st1.samples ++ [{
          ticket_no := r.ticket_no, ticket_name := r.ticket_name,
          priority := r.ticket_priority,
          created_at := fmtYMDHM r.create_dt,
          resolved_at := fmtYMDHM udt,
          target_h := tgt,
          tat_h := pyRound tat_hours 2,
          overdue_h := pyRound (tat_hours - tgt) 2 }] }
  | _, _ =>
    let age_hours : ℚ := max 0 (dtSubSeconds now r.create_dt / 3600)
    if age_hours ≤ (tgt : ℚ) then
      { st1 with
        opened := st1.opened + 1,
        open_within := st1.open_within + 1 }
    else
      { st1 with
        opened := st1.opened + 1,
        open_breach := st1.open_breach + 1,
        samples := st1.samples ++ [{
          ticket_no := r.ticket_no, ticket_name := r.ticket_name,
          priority := r.ticket_priority,
          created_at := fmtYMDHM r.create_dt,
          resolved_at := "",
          target_h := tgt,
          tat_h := pyRound age_hours 2,
          overdue_h := pyRound (age_hours - tgt) 2 }] }

structure AchOut where
  kpi_total : ℕ
  kpi_closed : ℕ
  kpi_open : ℕ
  kpi_achieved_closed : ℕ
  kpi_breached_closed : ℕ
  kpi_achieve_rate_closed : ℚ
  kpi_achieved_all_now : ℕ
  kpi_achieve_rate_all_now : ℚ
  kpi_open_within_sla : ℕ
  kpi_open_breach : ℕ
  pie_counts : List ℕ
  bar_labels : List String
  bar_achieved : List ℕ
  bar_breached : List ℕ
  trend_closed_achieved : List ℕ
  trend_closed_breached : List ℕ
  trend_rate : List ℚ
  breached_samples : List SlaSample
  rules_p1 : ℤ
  rules_p2 : ℤ
  rules_p3 : ℤ
  rules_p4 : ℤ
  rules_default : ℤ

def _query_sla_achievement (rows : List PDTicketRow) (params : SlaParams)
    (date_from date_to : DateTime) (interval : String) (now : DateTime) :
    AchOut :=
  let rules := _compose_rules_from_params params
  let total := rows.length
  let bucket_starts := _iter_buckets date_from date_to interval
  let st0 : AchState :=
    ⟨0, 0, 0, 0, 0, 0, List.replicate bucket_starts.length 0,
     List.replicate bucket_starts.length 0, [], [], [], []⟩
  let st := rows.foldl (achStep rules bucket_starts interval now) st0
  let sortedSamples :=
    List.insertionSort (fun a b => b.overdue_h ≤ a.overdue_h) st.samples
  let breached_samples := sortedSamples.take 50
  let totalForPr := fun pr => dictGetNat st.per_pr_ach pr + dictGetNat st.per_pr_bre pr
  let pr_sorted := List.insertionSort (fun a b => totalForPr b ≤ totalForPr a) st.pr_keys
  let rate_series := (List.range bucket_starts.length).map (fun i =>
    let a := st.closed_ach_series.getD i 0
    let b := st.closed_bre_series.getD i 0
    if a + b = 0 then (0 : ℚ) else pyRound ((a : ℚ) / ((a : ℚ) + (b : ℚ)) * 100) 1)
  { kpi_total := total
    kpi_closed := st.closed
    kpi_open := st.opened
    kpi_achieved_closed := st.achieved_closed
    kpi_breached_closed := st.breached_closed
    kpi_achieve_rate_closed :=
      if st.closed = 0 then 0
      else pyRound ((st.achieved_closed : ℚ) / (st.closed : ℚ) * 100) 1
    kpi_achieved_all_now := st.achieved_closed + st.open_within
    kpi_achieve_rate_all_now :=
      if total = 0 then 0
      else pyRound (((st.achieved_closed : ℚ) + (st.open_within : ℚ)) / (total : ℚ) * 100) 1
    kpi_open_within_sla := st.open_within
    kpi_open_breach := st.open_breach
    pie_counts := [st.achieved_closed, st.breached_closed]
    bar_labels := pr_sorted
    bar_achieved := pr_sorted.map (fun pr => dictGetNat st.per_pr_ach pr)
    bar_breached := pr_sorted.map (fun pr => dictGetNat st.per_pr_bre pr)
    trend_closed_achieved := st.closed_ach_series
    trend_closed_breached := st.closed_bre_series
    trend_rate := rate_series
    breached_samples := breached_samples
    rules_p1 := (rules.lookup "p1").getD ((SLA_RULES_DEFAULT.lookup "p1").getD 0)
    rules_p2 := (rules.lookup "p2").getD ((SLA_RULES_DEFAULT.lookup "p2").getD 0)
    rules_p3 := (rules.lookup "p3").getD ((SLA_RULES_DEFAULT.lookup "p3").getD 0)
    rules_p4 := (rules.lookup "p4").getD ((SLA_RULES_DEFAULT.lookup "p4").getD 0)
    rules_default := (rules.lookup "__default__").getD ((SLA_RULES_DEFAULT.lookup "__default__").getD 0) }

/-! ### Overdue Aggregator (`_query_overdue`, `reports_sla_overdue.py`) -/

structure OvSample where
  ticket_no : String
  ticket_name : String
  priority : String
  status : String
  created_at : String
  resolved_at : String
  target_h : ℤ
  tat_h : ℚ
  overdue_h : ℚ

structure OvState where
  overdue_open : ℕ
  overdue_closed : ℕ
  trend_open_bre : List ℕ
  trend_closed_bre : List ℕ
  pr_list : List String
  per_pr_open : List (String × ℕ)
  per_pr_closed : List (String × ℕ)
  samples : List OvSample

/-- `if pr not in pr_list: pr_list.append(pr)`. -/
def notePrOv (st : OvState) (pr : String) : OvState :=
  if pr ∈ st.pr_list then st else { st with pr_list := st.pr_list ++ [pr] }

/-- One iteration of the row loop of `_query_overdue`. -/
def ovStep (rules : List (String × ℤ)) (buckets : List Date)
    (interval : String) (now : DateTime) (st : OvState) (r : PDTicketRow) :
    OvState :=
  let tgt_h : ℤ := (_target_hours (some r.ticket_priority) rules).getD 0
  let pr0 := _normalize_priority (some r.ticket_priority)
  let pr := if pr0 = "" then "未設定" else pr0
  let st1 := notePrOv st pr
  match r.update_dt, _is_done (some r.ticket_status) with
  | some udt, true =>
    let tat_h : ℚ := max 0 (dtSubSeconds udt r.create_dt / 3600)
    if (tgt_h : ℚ) < tat_h then
      { st1 with
        overdue_closed := st1.overdue_closed + 1,
        per_pr_closed := dictSet st1.per_pr_closed pr (dictGetNat st1.per_pr_closed pr + 1),
        trend_closed_bre :=
          bumpAt st1.trend_closed_bre (idxOf buckets (_bucket_key udt interval)),
        samples := st1.samples ++ [{
          ticket_no := r.ticket_no, ticket_name := r.ticket_name,
          priority := r.ticket_priority, status := r.ticket_status,
          created_at := fmtYMDHM r.create_dt,
          resolved_at := fmtYMDHM udt,
          target_h := tgt_h,
          tat_h := pyRound tat_h 2,
          overdue_h := pyRound (tat_h - tgt_h) 2 }] }
    else st1
  | _, _ =>
    let age_h : ℚ := max 0 (dtSubSeconds now r.create_dt / 3600)
    if (tgt_h : ℚ) < age_h then
      { st1 with
        overdue_open := st1.overdue_open + 1,
        per_pr_open := dictSet st1.per_pr_open pr (dictGetNat st1.per_pr_open pr + 1),
        trend_open_bre :=
          bumpAt st1.trend_open_bre (idxOf buckets (_bucket_key r.create_dt interval)),
        samples := st1.samples ++ [{
          ticket_no := r.ticket_no, ticket_name := r.ticket_name,
          priority := r.ticket_priority, status := r.ticket_status,
          created_at := fmtYMDHM r.create_dt,
          resolved_at := "",
          target_h := tgt_h,
          tat_h := pyRound age_h 2,
          overdue_h := pyRound (age_h - tgt_h) 2 }] }
    else st1

structure OvOut where
  kpi_overdue_total : ℕ
  kpi_overdue_open : ℕ
  kpi_overdue_closed : ℕ
  bar_labels : List String
  bar_open_breached : List ℕ
  bar_closed_breached : List ℕ
  trend_open_breached : List ℕ
  trend_closed_breached : List ℕ
  trend_total : List ℕ
  samples : List OvSample
  rules_p1 : ℤ
  rules_p2 : ℤ
  rules_p3 : ℤ
  rules_p4 : ℤ
  rules_default : ℤ

def _query_overdue (rows : List PDTicketRow) (params : SlaParams)
    (date_from date_to : DateTime) (interval : String) (now : DateTime) :
    OvOut :=
  let rules := _compose_rules params
  let buckets := _iter_buckets date_from date_to interval
  let st0 : OvState :=
    ⟨0, 0, List.replicate buckets.length 0, List.replicate buckets.length 0,
     [], [], [], []⟩
  let st := rows.foldl (ovStep rules buckets interval now) st0
  let sortedSamples :=
    List.insertionSort (fun a b => b.overdue_h ≤ a.overdue_h) st.samples
  let top_samples := sortedSamples.take 50
  let totalForPr := fun pr => dictGetNat st.per_pr_open pr + dictGetNat st.per_pr_closed pr
  let pr_sorted := List.insertionSort (fun a b => totalForPr b ≤ totalForPr a) st.pr_list
  { kpi_overdue_total := st.overdue_open + st.overdue_closed
    kpi_overdue_open := st.overdue_open
    kpi_overdue_closed := st.overdue_closed
    bar_labels := pr_sorted
    bar_open_breached := pr_sorted.map (fun p => dictGetNat st.per_pr_open p)
    bar_closed_breached := pr_sorted.map (fun p => dictGetNat st.per_pr_closed p)
    trend_open_breached := st.trend_open_bre
    trend_closed_breached := st.trend_closed_bre
    trend_total := (List.range buckets.length).map
      (fun i => st.trend_open_bre.getD i 0 + st.trend_closed_bre.getD i 0)
    samples := top_samples
    rules_p1 := (rules.lookup "p1").getD ((SLA_RULES_DEFAULT.lookup "p1").getD 0)
    rules_p2 := (rules.lookup "p2").getD ((SLA_RULES_DEFAULT.lookup "p2").getD 0)
    rules_p3 := (rules.lookup "p3").getD ((SLA_RULES_DEFAULT.lookup "p3").getD 0)
    rules_p4 := (rules.lookup "p4").getD ((SLA_RULES_DEFAULT.lookup "p4").getD 0)
    rules_default := (rules.lookup "__default__").getD ((SLA_RULES_DEFAULT.lookup "__default__").getD 0) }

/-! ### Efficiency query (`_query_efficiency`, `reports_ticket.py`) -/

/-- The `_BUCKETS` table: lower bound (seconds) and optional upper bound
(`None` models `float("inf")`). -/
def _BUCKETS : List (ℚ × Option ℚ) :=
  [(0, some (60 * 60)),
   (60 * 60, some (4 * 60 * 60)),
   (4 * 60 * 60, some (8 * 60 * 60)),
   (8 * 60 * 60, some (24 * 60 * 60)),
   (24 * 60 * 60, some (3 * 24 * 60 * 60)),
   (3 * 24 * 60 * 60, some (7 * 24 * 60 * 60)),
   (7 * 24 * 60 * 60, none)]

/-- Index of the first duration bucket with `lo <= sec < hi`. -/
def bucketIndex (sec : ℚ) : Option ℕ :=
  _BUCKETS.findIdx? (fun b =>
    decide (b.1 ≤ sec) && (match b.2 with
      | some hi => decide (sec < hi)
      | none => true))

structure EffSample where
  ticket_sid : ℤ
  ticket_no : String
  ticket_name : String
  project_sid : ℤ
  created_at : String
  resolved_at : String
  resolved_hours : ℚ

structure EffState where
  done_secs : List ℚ
  bucket_counts : List ℕ
  samples : List EffSample

/-- One iteration of the closed-ticket loop of `_query_efficiency`.
Note that a negative duration (`sec < 0`) causes the row to be skipped
(`continue`), not clamped. -/
def effStep (st : EffState) (r : PDTicketRow) : EffState :=
  if ! _is_done (some r.ticket_status) then st
  else match r.update_dt with
  | none => st
  | some udt =>
    let sec := dtSubSeconds udt r.create_dt
    if sec < 0 then st
    else
      let st1 : EffState :=
        { st with
          done_secs := st.done_secs ++ [sec],
          bucket_counts := bumpAt st.bucket_counts (bucketIndex sec) }
      if st1.samples.length < 50 then
        { st1 with
          samples := st1.samples ++ [{
            ticket_sid := r.ticket_sid, ticket_no := r.ticket_no,
            ticket_name := r.ticket_name, project_sid := r.project_sid,
            created_at := fmtYMDHM r.create_dt,
            resolved_at := fmtYMDHM udt,
            resolved_hours := pyRound (sec / 3600) 2 }] }
      else st1

structure EffOut where
  bucket_counts : List ℕ
  bucket_pcts : List ℚ
  kpi_done_count : ℕ
  kpi_avg_hours : ℚ
  kpi_median_hours : ℚ
  kpi_p90_hours : ℚ
  kpi_open_count : ℕ
  kpi_open_avg_age_hours : ℚ
  samples : List EffSample

def _query_efficiency (done_rows open_rows : List PDTicketRow)
    (now : DateTime) : EffOut :=
  let st := done_rows.foldl effStep ⟨[], List.replicate _BUCKETS.length 0, []⟩
  let done_count := st.done_secs.length
  let avg_hours :=
    if done_count = 0 then 0
    else pyRound ((st.done_secs.sum / (done_count : ℚ)) / 3600) 2
  let median_hours :=
    if done_count = 0 then 0 else pyRound (_percentile st.done_secs 0.5 / 3600) 2
  let p90_hours :=
    if done_count = 0 then 0 else pyRound (_percentile st.done_secs 0.9 / 3600) 2
  let open_secs := (open_rows.filter
      (fun r => ! _is_done (some r.ticket_status))).filterMap (fun r =>
    let age := dtSubSeconds now r.create_dt
    if 0 ≤ age then some age else none)
  let open_count := open_secs.length
  let open_avg_age_hours :=
    if open_count = 0 then 0
    else pyRound ((open_secs.sum / (open_count : ℚ)) / 3600) 2
  let total_for_pct : ℕ := if done_count = 0 then 1 else done_count
  { bucket_counts := st.bucket_counts
    bucket_pcts := st.bucket_counts.map
      (fun c => pyRound ((c : ℚ) / (total_for_pct : ℚ) * 100) 2)
    kpi_done_count := done_count
    kpi_avg_hours := avg_hours
    kpi_median_hours := median_hours
    kpi_p90_hours := p90_hours
    kpi_open_count := open_count
    kpi_open_avg_age_hours := open_avg_age_hours
    samples := st.samples }

/-- The closed-ticket loop as the negative-duration spec sentence reads it:
a negative duration is clamped to zero and the row is kept.  It differs
from `effStep` (the code) only in the `sec < 0` arm; used to exhibit the
divergence. -/
def effStepClamped (st : EffState) (r : PDTicketRow) : EffState :=
  if ! _is_done (some r.ticket_status) then st
  else match r.update_dt with
  | none => st
  | some udt =>
    let sec := max 0 (dtSubSeconds udt r.create_dt)
    let st1 : EffState :=
      { st with
        done_secs := st.done_secs ++ [sec],
        bucket_counts := bumpAt st.bucket_counts (bucketIndex sec) }
    if st1.samples.length < 50 then
      { st1 with
        samples := st1.samples ++ [{
          ticket_sid := r.ticket_sid, ticket_no := r.ticket_no,
          ticket_name := r.ticket_name, project_sid := r.project_sid,
          created_at := fmtYMDHM r.create_dt,
          resolved_at := fmtYMDHM udt,
          resolved_hours := pyRound (sec / 3600) 2 }] }
    else st1

/-- `_query_efficiency` under the clamp-to-zero reading of the spec. -/
def _query_efficiency_clamped (done_rows open_rows : List PDTicketRow)
    (now : DateTime) : EffOut :=
  let st := done_rows.foldl effStepClamped ⟨[], List.replicate _BUCKETS.length 0, []⟩
  let done_count := st.done_secs.length
  let avg_hours :=
    if done_count = 0 then 0
    else pyRound ((st.done_secs.sum / (done_count : ℚ)) / 3600) 2
  let median_hours :=
    if done_count = 0 then 0 else pyRound (_percentile st.done_secs 0.5 / 3600) 2
  let p90_hours :=
    if done_count = 0 then 0 else pyRound (_percentile st.done_secs 0.9 / 3600) 2
  let open_secs := (open_rows.filter
      (fun r => ! _is_done (some r.ticket_status))).map (fun r =>
    max 0 (dtSubSeconds now r.create_dt))
  let open_count := open_secs.length
  let open_avg_age_hours :=
    if open_count = 0 then 0
    else pyRound ((open_secs.sum / (open_count : ℚ)) / 3600) 2
  let total_for_pct : ℕ := if done_count = 0 then 1 else done_count
  { bucket_counts := st.bucket_counts
    bucket_pcts := st.bucket_counts.map
      (fun c => pyRound ((c : ℚ) / (total_for_pct : ℚ) * 100) 2)
    kpi_done_count := done_count
    kpi_avg_hours := avg_hours
    kpi_median_hours := median_hours
    kpi_p90_hours := p90_hours
    kpi_open_count := open_count
    kpi_open_avg_age_hours := open_avg_age_hours
    samples := st.samples }

/-! ### Project-progress open-now query (`_query_project_progress`) -/

/-- The filter of the `open_now` count and the oldest-open list:
`status == 1`, the project, and `~lower(ticket_status).in_(keywords)` —
exact IN-list membership, not keyword containment. -/
def openNowPred (project_sid : ℤ) (r : PDTicketRow) : Bool :=
  decide (r.status = 1) && decide (r.project_sid = project_sid) &&
    sqlNotInDone (some r.ticket_status)

/-- The `open_now` scalar KPI of `_query_project_progress`. -/
def open_now_count (tickets : List PDTicketRow) (project_sid : ℤ) : ℕ :=
  (tickets.filter (fun r => openNowPred project_sid r)).length

/-- The oldest-open item list of `_query_project_progress`
(same filter, sorted by `create_dt` ascending, first 20). -/
def open_items_rows (tickets : List PDTicketRow) (project_sid : ℤ) :
    List PDTicketRow :=
  (List.insertionSort (fun a b => a.create_dt ≤ b.create_dt)
    (tickets.filter (fun r => openNowPred project_sid r))).take 20

/-! ### Project-category rollup (`_query_project_category`) -/

structure CatParams where
  project_sid : Option ℤ
  date_from : DateTime
  date_to : DateTime
  type_group : Option String

/-- Sample membership: `status == 1` and `create_dt ∈ [date_from, date_to]`,
plus the optional project filter (`if project_sid:` is Python truthiness,
so `0` disables it) and the optional type-group filter through the outer
join with `pd_type_master`. -/
def catSamplePred (params : CatParams) (types : List PDTypeRow)
    (t : PDTicketRow) : Bool :=
  decide (t.status = 1) &&
  decide (params.date_from ≤ t.create_dt) &&
  decide (t.create_dt ≤ params.date_to) &&
  (match params.project_sid with
   | some pid => if pid = 0 then true else decide (t.project_sid = pid)
   | none => true) &&
  (match params.type_group with
   | some tg =>
     (match t.ticket_type with
      | some ty => (types.find? (fun tr => tr.type_sid = ty)).any
          (fun tr => tr.type_group = tg)
      | none => false)
   | none => true)

/-- The extra conditions of `closed_q`: `update_dt <= date_to` (a SQL
`NULL` fails the comparison) and the keyword `LIKE` disjunction. -/
def catClosedPred (params : CatParams) (t : PDTicketRow) : Bool :=
  (match t.update_dt with
   | some u => decide (u ≤ params.date_to)
   | none => false) &&
  _done_sql_expr (some t.ticket_status)

structure CatRow where
  type_sid : Option ℤ
  type_name : String
  count : ℤ
  percent : ℚ
  open_cnt : ℤ
  closed_cnt : ℤ

structure CatOut where
  pie_labels : List String
  pie_counts : List ℤ
  stack_open : List ℤ
  stack_closed : List ℤ
  kpi_total : ℤ
  kpi_categories : ℕ
  kpi_top_label : String
  kpi_top_count : ℤ
  kpi_top_pct : ℚ
  kpi_closed_pct : ℚ
  rows : List CatRow

def _query_project_category (tickets : List PDTicketRow)
    (types : List PDTypeRow) (params : CatParams) : CatOut :=
  let sample := tickets.filter (catSamplePred params types)
  if sample.isEmpty then
    { pie_labels := [], pie_counts := [], stack_open := [], stack_closed := []
      kpi_total := 0, kpi_categories := 0, kpi_top_label := ""
      kpi_top_count := 0, kpi_top_pct := 0, kpi_closed_pct := 0, rows := [] }
  else
    let keys : List (Option ℤ) := (sample.map (fun t => t.ticket_type)).dedup
    let cnt : Option ℤ → ℤ := fun sid =>
      ((sample.filter (fun t => t.ticket_type = sid)).length : ℤ)
    let cls : Option ℤ → ℤ := fun sid =>
      ((sample.filter (fun t =>
        t.ticket_type = sid && catClosedPred params t)).length : ℤ)
    let total : ℤ := (keys.map cnt).sum
    let all_keys := List.insertionSort (fun a b => cnt b ≤ cnt a) keys
    let rows : List CatRow := all_keys.map (fun sid =>
      let name := match sid.bind (fun ty =>
          (types.find? (fun tr => tr.type_sid = ty)).map
            (fun tr => tr.type_name)) with
        | some n => n
        | none => "未分類"
      let c := cnt sid
      let cl := cls sid
      { type_sid := sid
        type_name := name
        count := c
        percent := if total = 0 then 0 else pyRound ((c : ℚ) / (total : ℚ) * 100) 2
        open_cnt := max (c - cl) 0
        closed_cnt := cl })
    let top := rows.foldl (fun acc row =>
      if acc.2 < row.count then (row.type_name, row.count) else acc) ("", 0)
    let closed_total := (rows.map (fun row => row.closed_cnt)).sum
    { pie_labels := rows.map (fun row => row.type_name)
      pie_counts := rows.map (fun row => row.count)
      stack_open := rows.map (fun row => row.open_cnt)
      stack_closed := rows.map (fun row => row.closed_cnt)
      kpi_total := total
      kpi_categories := all_keys.length
      kpi_top_label := top.1
      kpi_top_count := top.2
      kpi_top_pct := if total = 0 then 0 else pyRound ((top.2 : ℚ) / (total : ℚ) * 100) 1
      kpi_closed_pct := if total = 0 then 0
        else pyRound ((closed_total : ℚ) / (total : ℚ) * 100) 1
      rows := rows }

/-! ### Dict lemmas for the rule composer -/

theorem lookup_dictSet_self {β : Type} (l : List (String × β)) (k : String) (v : β) :
    (dictSet l k v).lookup k = some v := by
  induction l with
  | nil => simp [dictSet, List.lookup]
  | cons kv rest ih =>
    obtain ⟨k', v'⟩ := kv
    unfold dictSet
    split_ifs with h
    · simp [List.lookup]
    · have hbe : (k == k') = false := beq_eq_false_iff_ne.mpr (fun hc => h hc.symm)
      simp only [List.lookup, hbe]
      exact ih

theorem lookup_dictSet_ne {β : Type} (l : List (String × β)) {k k' : String} (v : β)
    (h : k' ≠ k) : (dictSet l k' v).lookup k = l.lookup k := by
  induction l with
  | nil =>
    have hbe : (k == k') = false := beq_eq_false_iff_ne.mpr (fun hc => h hc.symm)
    simp [dictSet, List.lookup, hbe]
  | cons kv rest ih =>
    obtain ⟨k0, v0⟩ := kv
    unfold dictSet
    split_ifs with h0
    · subst h0
      have hbe : (k == k0) = false := beq_eq_false_iff_ne.mpr (fun hc => h hc.symm)
      simp only [List.lookup, hbe]
    · cases hbe : (k == k0) with
      | true => simp only [List.lookup, hbe]
      | false =>
        simp only [List.lookup, hbe]
        exact ih

theorem lookup_mem {β : Type} {l : List (String × β)} {k : String} {v : β}
    (h : l.lookup k = some v) : (k, v) ∈ l := by
  induction l with
  | nil => simp [List.lookup] at h
  | cons kv rest ih =>
    obtain ⟨k0, v0⟩ := kv
    cases hbe : (k == k0) with
    | true =>
      simp only [List.lookup, hbe] at h
      obtain rfl : k = k0 := beq_iff_eq.mp hbe
      obtain rfl : v0 = v := by injection h
      exact List.mem_cons_self _ _
    | false =>
      simp only [List.lookup, hbe] at h
      exact List.mem_cons_of_mem _ (ih h)

/-- The effective value an override leaves in place, given the base value. -/
def resolveOv (base : ℤ) : Option OverrideVal → ℤ
  | none => base
  | some (OverrideVal.intval n) => max 0 n
  | some OverrideVal.malformed => base

theorem lookup_applyOverride_ne (l : List (String × ℤ)) {norm k : String}
    (v : Option OverrideVal) (h : norm ≠ k) :
    (applyOverride l norm v).lookup k = l.lookup k := by
  unfold applyOverride
  match v with
  | none => rfl
  | some (OverrideVal.intval n) => exact lookup_dictSet_ne l _ h
  | some OverrideVal.malformed => rfl

theorem lookup_applyOverride_self (l : List (String × ℤ)) {norm : String}
    {base : ℤ} (v : Option OverrideVal) (hb : l.lookup norm = some base) :
    (applyOverride l norm v).lookup norm = some (resolveOv base v) := by
  unfold applyOverride resolveOv
  match v with
  | none => exact hb
  | some (OverrideVal.intval n) => exact lookup_dictSet_self l _ _
  | some OverrideVal.malformed => exact hb

theorem dictSet_forall {β : Type} {P : β → Prop} (l : List (String × β))
    (k : String) (v : β) (hl : ∀ kv ∈ l, P kv.2) (hv : P v) :
    ∀ kv ∈ dictSet l k v, P kv.2 := by
  induction l with
  | nil =>
    intro kv hkv
    unfold dictSet at hkv
    simp only [List.mem_singleton] at hkv
    subst hkv; exact hv
  | cons kv0 rest ih =>
    intro kv hkv
    obtain ⟨k0, v0⟩ := kv0
    unfold dictSet at hkv
    split_ifs at hkv with h0
    · rcases List.mem_cons.mp hkv with rfl | h
      · exact hv
      · exact hl _ (List.mem_cons_of_mem _ h)
    · rcases List.mem_cons.mp hkv with rfl | h
      · exact hl _ (List.mem_cons_self _ _)
      · exact ih (fun kv h' => hl _ (List.mem_cons_of_mem _ h')) kv h

theorem applyOverride_forall {l : List (String × ℤ)} {norm : String}
    (v : Option OverrideVal) (hl : ∀ kv ∈ l, 0 ≤ kv.2) :
    ∀ kv ∈ applyOverride l norm v, 0 ≤ kv.2 := by
  unfold applyOverride
  match v with
  | none => exact hl
  | some (OverrideVal.intval n) => exact dictSet_forall l _ _ hl (le_max_left 0 n)
  | some OverrideVal.malformed => exact hl

theorem compose_forall (params : SlaParams) :
    ∀ kv ∈ _compose_rules_from_params params, 0 ≤ kv.2 := by
  unfold _compose_rules_from_params
  refine applyOverride_forall _ (applyOverride_forall _ (applyOverride_forall _
    (applyOverride_forall _ (applyOverride_forall _ ?_))))
  intro kv hkv
  fin_cases hkv <;> norm_num

/-- The five tier entries of a composed ruleset, as a function of the
supplied overrides. -/
theorem compose_lookup (params : SlaParams) :
    (_compose_rules_from_params params).lookup "p1" = some (resolveOv 4 params.p1h) ∧
    (_compose_rules_from_params params).lookup "p2" = some (resolveOv 8 params.p2h) ∧
    (_compose_rules_from_params params).lookup "p3" = some (resolveOv 24 params.p3h) ∧
    (_compose_rules_from_params params).lookup "p4" = some (resolveOv 72 params.p4h) ∧
    (_compose_rules_from_params params).lookup "__default__" =
      some (resolveOv 24 params.defh) := by
  unfold _compose_rules_from_params
  refine ⟨?_, ?_, ?_, ?_, ?_⟩
  · rw [lookup_applyOverride_ne _ _ (by decide), lookup_applyOverride_ne _ _ (by decide),
      lookup_applyOverride_ne _ _ (by decide), lookup_applyOverride_ne _ _ (by decide)]
    exact lookup_applyOverride_self _ _ (by decide)
  · rw [lookup_applyOverride_ne _ _ (by decide), lookup_applyOverride_ne _ _ (by decide),
      lookup_applyOverride_ne _ _ (by decide)]
    exact lookup_applyOverride_self _ _
      (by rw [lookup_applyOverride_ne _ _ (by decide)]; decide)
  · rw [lookup_applyOverride_ne _ _ (by decide), lookup_applyOverride_ne _ _ (by decide)]
    exact lookup_applyOverride_self _ _
      (by rw [lookup_applyOverride_ne _ _ (by decide),
        lookup_applyOverride_ne _ _ (by decide)]; decide)
  · rw [lookup_applyOverride_ne _ _ (by decide)]
    exact lookup_applyOverride_self _ _
      (by rw [lookup_applyOverride_ne _ _ (by decide),
        lookup_applyOverride_ne _ _ (by decide),
        lookup_applyOverride_ne _ _ (by decide)]; decide)
  · exact lookup_applyOverride_self _ _
      (by rw [lookup_applyOverride_ne _ _ (by decide),
        lookup_applyOverride_ne _ _ (by decide),
        lookup_applyOverride_ne _ _ (by decide),
        lookup_applyOverride_ne _ _ (by decide)]; decide)

/-- `_compose_rules` (overdue report) has the same body as
`_compose_rules_from_params` (achievement report). -/
theorem compose_rules_eq : _compose_rules = _compose_rules_from_params := rfl

/-! ## Claim theorems -/

/-- C1: for every priority string (including null and empty) and every
composed ruleset, `_target_hours` returns a non-negative integer that is
the ruleset entry for the normalized priority, the entry for its alias
under the fixed table, or the ruleset's `__default__` entry; it never
raises (`some`) and never returns null. -/
theorem C1_sla_resolution_totality (priority : Option String) (params : SlaParams) :
    ∃ h : ℤ,
      _target_hours priority (_compose_rules_from_params params) = some h ∧
      0 ≤ h ∧
      ((_compose_rules_from_params params).lookup (_normalize_priority priority) = some h ∨
       (∃ a, PRIORITY_ALIAS.lookup (_normalize_priority priority) = some a ∧
         (_compose_rules_from_params params).lookup a = some h) ∨
       (_compose_rules_from_params params).lookup "__default__" = some h) := by
  have hnn : ∀ kv ∈ _compose_rules_from_params params, 0 ≤ kv.2 := compose_forall params
  have hdef : (_compose_rules_from_params params).lookup "__default__" =
      some (resolveOv 24 params.defh) := (compose_lookup params).2.2.2.2
  rcases hl : (_compose_rules_from_params params).lookup (_normalize_priority priority)
    with _ | h
  · rcases ha : PRIORITY_ALIAS.lookup (_normalize_priority priority) with _ | a
    · refine ⟨resolveOv 24 params.defh, ?_, hnn _ (lookup_mem hdef), Or.inr (Or.inr hdef)⟩
      simp only [_target_hours, hl, ha, hdef]
    · rcases hla : (_compose_rules_from_params params).lookup a with _ | h2
      · refine ⟨resolveOv 24 params.defh, ?_, hnn _ (lookup_mem hdef), Or.inr (Or.inr hdef)⟩
        simp only [_target_hours, hl, ha, hla, hdef]
      · refine ⟨h2, ?_, hnn _ (lookup_mem hla), Or.inr (Or.inl ⟨a, rfl, hla⟩)⟩
        simp only [_target_hours, hl, ha, hla]
  · refine ⟨h, ?_, hnn _ (lookup_mem hl), Or.inl rfl⟩
    simp only [_target_hours, hl]

/-- C6 counterexample: the override value `-5` parses as an integer but is
not a non-negative integer, yet the base entry `p1 = 4` does not stand —
it is replaced (by `max(0, -5) = 0`). -/
theorem C6_counterexample_negative_override :
    ¬ ((_compose_rules_from_params
        ⟨some (OverrideVal.intval (-5)), none, none, none, none⟩).lookup "p1" =
       SLA_RULES_DEFAULT.lookup "p1") := by decide

/-- C6 (amended): for each override parameter, an absent or unparsable
value leaves the base entry unchanged, and a value that parses as an
integer `n` replaces the entry with `max 0 n` — so a non-negative integer
replaces it with itself, while a negative integer replaces it with `0`
rather than being ignored.  This holds for both copies of the composer
(`resolveOv` spells out that effective value). -/
theorem C6_override_composition (params : SlaParams) :
    ((_compose_rules_from_params params).lookup "p1" = some (resolveOv 4 params.p1h) ∧
     (_compose_rules_from_params params).lookup "p2" = some (resolveOv 8 params.p2h) ∧
     (_compose_rules_from_params params).lookup "p3" = some (resolveOv 24 params.p3h) ∧
     (_compose_rules_from_params params).lookup "p4" = some (resolveOv 72 params.p4h) ∧
     (_compose_rules_from_params params).lookup "__default__" =
       some (resolveOv 24 params.defh)) ∧
    ((_compose_rules params).lookup "p1" = some (resolveOv 4 params.p1h) ∧
     (_compose_rules params).lookup "p2" = some (resolveOv 8 params.p2h) ∧
     (_compose_rules params).lookup "p3" = some (resolveOv 24 params.p3h) ∧
     (_compose_rules params).lookup "p4" = some (resolveOv 72 params.p4h) ∧
     (_compose_rules params).lookup "__default__" =
       some (resolveOv 24 params.defh)) := by
  refine ⟨compose_lookup params, ?_⟩
  rw [compose_rules_eq]
  exact compose_lookup params

/-- C10: the `open_now` KPI and the oldest-open list of
`_query_project_progress` classify "done" by exact IN-list membership, so
a ticket whose lowercased status strictly contains a completion keyword
without equalling one is `done` for the Completion Classifier but open for
`open_now`. -/
theorem C10_open_now_exact_match (tickets : List PDTicketRow) (pid : ℤ)
    (t : PDTicketRow) (ht : t ∈ tickets) (hst : t.status = 1)
    (hproj : t.project_sid = pid) (k : String)
    (hk : k ∈ _DONE_KEYWORDS_LOWER)
    (hsub : strContains (pyLower t.ticket_status) k = true)
    (hne : _DONE_KEYWORDS_LOWER.contains (pyLower t.ticket_status) = false) :
    _is_done (some t.ticket_status) = true ∧
    openNowPred pid t = true ∧
    t ∈ tickets.filter (fun r => openNowPred pid r) ∧
    0 < open_now_count tickets pid := by
  have hdone : _is_done (some t.ticket_status) = true := by
    unfold _is_done
    exact List.any_eq_true.mpr ⟨k, hk, hsub⟩
  have hpred : openNowPred pid t = true := by
    have hnotmem : pyLower t.ticket_status ∉ _DONE_KEYWORDS_LOWER := by
      intro hc
      simp_all
    unfold openNowPred sqlNotInDone
    simp [hst, hproj, hnotmem]
  have hmem : t ∈ tickets.filter (fun r => openNowPred pid r) :=
    List.mem_filter.mpr ⟨ht, hpred⟩
  refine ⟨hdone, hpred, hmem, ?_⟩
  unfold open_now_count
  exact List.length_pos.mpr (List.ne_nil_of_mem hmem)

/-! ### Percentile lemmas -/

/-- The index/interpolation core shared by `_percentile` and `_pctile`,
abbreviated for the monotonicity proof. -/
def interpVal (s : List ℚ) (k : ℚ) : ℚ :=
  let f : ℤ := intTrunc k
  let c : ℤ := min (f + 1) ((s.length : ℤ) - 1)
  if f = c then s.getD (intTrunc k).toNat 0
  else s.getD f.toNat 0 + (s.getD c.toNat 0 - s.getD f.toNat 0) * (k - (f : ℚ))

theorem percentile_eq_interp (v : List ℚ) (p : ℚ) (hv : v ≠ []) :
    _percentile v p = interpVal (List.insertionSort (· ≤ ·) v)
      (((List.insertionSort (· ≤ ·) v).length - 1 : ℚ) * p) := by
  unfold _percentile interpVal
  rw [if_neg hv]

theorem sorted_getD_mono {s : List ℚ} (hs : List.Sorted (· ≤ ·) s) {i j : ℕ}
    (hij : i ≤ j) (hj : j < s.length) : s.getD i 0 ≤ s.getD j 0 := by
  have hi : i < s.length := lt_of_le_of_lt hij hj
  rw [List.getD_eq_getElem s 0 hi, List.getD_eq_getElem s 0 hj]
  rcases eq_or_lt_of_le hij with rfl | hlt
  · exact le_refl _
  · have := List.pairwise_iff_get.mp hs ⟨i, hi⟩ ⟨j, hj⟩ hlt
    simpa using this

theorem interpVal_mono {s : List ℚ} (hs : List.Sorted (· ≤ ·) s) (hne : s ≠ [])
    {k1 k2 : ℚ} (hk0 : 0 ≤ k1) (hk12 : k1 ≤ k2)
    (hk2 : k2 ≤ (s.length : ℚ) - 1) :
    interpVal s k1 ≤ interpVal s k2 := by
  have hk20 : 0 ≤ k2 := le_trans hk0 hk12
  have hn1 : 1 ≤ s.length := List.length_pos.mpr hne
  have ht1 : intTrunc k1 = ⌊k1⌋ := if_pos hk0
  have ht2 : intTrunc k2 = ⌊k2⌋ := if_pos hk20
  set f1 : ℤ := ⌊k1⌋ with hf1
  set f2 : ℤ := ⌊k2⌋ with hf2
  have hf1le : (f1 : ℚ) ≤ k1 := Int.floor_le k1
  have hf2le : (f2 : ℚ) ≤ k2 := Int.floor_le k2
  have hf1lt : k1 < f1 + 1 := Int.lt_floor_add_one k1
  have hf2lt : k2 < f2 + 1 := Int.lt_floor_add_one k2
  have hf10 : 0 ≤ f1 := Int.le_floor.mpr (by exact_mod_cast hk0)
  have hf20 : 0 ≤ f2 := Int.le_floor.mpr (by exact_mod_cast hk20)
  have hf12 : f1 ≤ f2 := Int.floor_le_floor hk12
  have hf2n : f2 ≤ (s.length : ℤ) - 1 := by
    have h1 : (f2 : ℚ) ≤ (s.length : ℚ) - 1 := le_trans hf2le hk2
    have h2 : (f2 : ℚ) ≤ (((s.length : ℤ) - 1 : ℤ) : ℚ) := by push_cast; linarith
    exact_mod_cast h2
  unfold interpVal
  rw [ht1, ht2]
  dsimp only
  rcases eq_or_lt_of_le hf12 with heq | hlt12
  · -- same floor
    rw [← heq]
    by_cases hc : f1 + 1 ≤ (s.length : ℤ) - 1
    · have hmin : min (f1 + 1) ((s.length : ℤ) - 1) = f1 + 1 := min_eq_left hc
      rw [hmin, if_neg (by omega), if_neg (by omega)]
      have hmono : s.getD f1.toNat 0 ≤ s.getD (f1 + 1).toNat 0 := by
        apply sorted_getD_mono hs (by omega)
        omega
      have hfac : (0 : ℚ) ≤ s.getD (f1 + 1).toNat 0 - s.getD f1.toNat 0 := by linarith
      have := mul_le_mul_of_nonneg_left (sub_le_sub_right hk12 (f1 : ℚ)) hfac
      linarith [this]
    · have hmin : min (f1 + 1) ((s.length : ℤ) - 1) = (s.length : ℤ) - 1 :=
        min_eq_right (by omega)
      have hceq : f1 = min (f1 + 1) ((s.length : ℤ) - 1) := by omega
      rw [if_pos hceq, if_pos hceq]
  · -- f1 < f2
    have hf1n : f1 + 1 ≤ (s.length : ℤ) - 1 := by omega
    have hmin1 : min (f1 + 1) ((s.length : ℤ) - 1) = f1 + 1 := min_eq_left hf1n
    have hmono1 : s.getD f1.toNat 0 ≤ s.getD (f1 + 1).toNat 0 := by
      apply sorted_getD_mono hs (by omega)
      omega
    have hfac1 : (0 : ℚ) ≤ s.getD (f1 + 1).toNat 0 - s.getD f1.toNat 0 := by linarith
    have hv1top : s.getD f1.toNat 0 +
        (s.getD (f1 + 1).toNat 0 - s.getD f1.toNat 0) * (k1 - (f1 : ℚ)) ≤
        s.getD (f1 + 1).toNat 0 := by
      have ht : k1 - (f1 : ℚ) ≤ 1 := by linarith
      have := mul_le_mul_of_nonneg_left ht hfac1
      linarith [this]
    have hmid : s.getD (f1 + 1).toNat 0 ≤ s.getD f2.toNat 0 := by
      apply sorted_getD_mono hs
      · omega
      · omega
    rw [hmin1, if_neg (by omega)]
    by_cases hc2 : f2 = min (f2 + 1) ((s.length : ℤ) - 1)
    · rw [if_pos hc2]
      calc s.getD f1.toNat 0 +
            (s.getD (f1 + 1).toNat 0 - s.getD f1.toNat 0) * (k1 - (f1 : ℚ)) ≤
          s.getD (f1 + 1).toNat 0 := hv1top
        _ ≤ s.getD f2.toNat 0 := hmid
    · rw [if_neg hc2]
      have hc2' : min (f2 + 1) ((s.length : ℤ) - 1) = f2 + 1 := by
        rcases le_total (f2 + 1) ((s.length : ℤ) - 1) with h | h
        · exact min_eq_left h
        · have hmin : min (f2 + 1) ((s.length : ℤ) - 1) = (s.length : ℤ) - 1 :=
            min_eq_right h
          rcases eq_or_lt_of_le hf2n with he | hl
          · exact absurd (by omega) hc2
          · omega
      have hbot : s.getD f2.toNat 0 ≤ s.getD f2.toNat 0 +
          (s.getD (min (f2 + 1) ((s.length : ℤ) - 1)).toNat 0 - s.getD f2.toNat 0) *
            (k2 - (f2 : ℚ)) := by
        rw [hc2']
        have hmono2 : s.getD f2.toNat 0 ≤ s.getD (f2 + 1).toNat 0 := by
          apply sorted_getD_mono hs (by omega)
          omega
        have hfac : (0 : ℚ) ≤ s.getD (f2 + 1).toNat 0 - s.getD f2.toNat 0 := by linarith
        have ht : (0 : ℚ) ≤ k2 - (f2 : ℚ) := by linarith
        nlinarith [mul_nonneg hfac ht]
      calc s.getD f1.toNat 0 +
            (s.getD (f1 + 1).toNat 0 - s.getD f1.toNat 0) * (k1 - (f1 : ℚ)) ≤
          s.getD (f1 + 1).toNat 0 := hv1top
        _ ≤ s.getD f2.toNat 0 := hmid
        _ ≤ _ := hbot

/-- C5: `_percentile` implements linear-interpolation percentile (and
`_pctile` is the same function); on any non-empty list it is monotone in
`p` over `[0, 1]`. -/
theorem C5_percentile_monotone (v : List ℚ) (p1 p2 : ℚ) (hv : v ≠ [])
    (h0 : 0 ≤ p1) (h12 : p1 < p2) (h2 : p2 ≤ 1) :
    (∀ (w : List ℚ) (q : ℚ), _pctile w q = _percentile w q) ∧
    _percentile v p1 ≤ _percentile v p2 := by
  refine ⟨fun w q => rfl, ?_⟩
  rw [percentile_eq_interp v p1 hv, percentile_eq_interp v p2 hv]
  have hs : List.Sorted (· ≤ ·) (List.insertionSort (· ≤ ·) v) :=
    List.sorted_insertionSort (fun a b => a ≤ b) v
  have hlen : (List.insertionSort (· ≤ ·) v).length = v.length :=
    List.length_insertionSort (fun a b => a ≤ b) v
  have hne : List.insertionSort (· ≤ ·) v ≠ [] := by
    intro hnil
    apply hv
    have h0' : v.length = 0 := by rw [← hlen, hnil]; rfl
    exact List.eq_nil_of_length_eq_zero h0'
  have hlen1 : 1 ≤ (List.insertionSort (· ≤ ·) v).length := List.length_pos.mpr hne
  have hnn : (0 : ℚ) ≤ ((List.insertionSort (· ≤ ·) v).length : ℚ) - 1 := by
    have h1 : (1 : ℚ) ≤ ((List.insertionSort (· ≤ ·) v).length : ℚ) := by
      exact_mod_cast hlen1
    linarith
  apply interpVal_mono hs hne
  · exact mul_nonneg hnn h0
  · exact mul_le_mul_of_nonneg_left (le_of_lt h12) hnn
  · calc (((List.insertionSort (· ≤ ·) v).length : ℚ) - 1) * p2 ≤
        (((List.insertionSort (· ≤ ·) v).length : ℚ) - 1) * 1 :=
        mul_le_mul_of_nonneg_left h2 hnn
      _ = ((List.insertionSort (· ≤ ·) v).length : ℚ) - 1 := mul_one _

/-- C5 witness: the theorem applied at `v = [1, 3, 2]`, `p1 = 1/4`,
`p2 = 3/4`. -/
theorem C5_percentile_monotone_witness :
    (([1, 3, 2] : List ℚ) ≠ [] ∧ (0 : ℚ) ≤ 1/4 ∧ (1 : ℚ)/4 < 3/4 ∧ (3 : ℚ)/4 ≤ 1) ∧
    ((∀ (w : List ℚ) (q : ℚ), _pctile w q = _percentile w q) ∧
      _percentile [1, 3, 2] (1/4) ≤ _percentile [1, 3, 2] (3/4)) :=
  ⟨⟨List.cons_ne_nil _ _, by norm_num, by norm_num, by norm_num⟩,
   C5_percentile_monotone [1, 3, 2] (1/4) (3/4) (List.cons_ne_nil _ _) (by norm_num)
     (by norm_num) (by norm_num)⟩

/-! ### Fold invariants of the Achievement Aggregator -/

theorem notePr_closed (st : AchState) (pr : String) :
    (notePr st pr).closed = st.closed := by
  unfold notePr; split_ifs <;> rfl

theorem notePr_achieved (st : AchState) (pr : String) :
    (notePr st pr).achieved_closed = st.achieved_closed := by
  unfold notePr; split_ifs <;> rfl

theorem notePr_breached (st : AchState) (pr : String) :
    (notePr st pr).breached_closed = st.breached_closed := by
  unfold notePr; split_ifs <;> rfl

theorem notePr_opened (st : AchState) (pr : String) :
    (notePr st pr).opened = st.opened := by
  unfold notePr; split_ifs <;> rfl

theorem notePr_open_within (st : AchState) (pr : String) :
    (notePr st pr).open_within = st.open_within := by
  unfold notePr; split_ifs <;> rfl

theorem notePr_open_breach (st : AchState) (pr : String) :
    (notePr st pr).open_breach = st.open_breach := by
  unfold notePr; split_ifs <;> rfl

theorem notePr_samples (st : AchState) (pr : String) :
    (notePr st pr).samples = st.samples := by
  unfold notePr; split_ifs <;> rfl

/-- "Closed for SLA purposes": completion keyword matched and `update_dt`
present. -/
def achIsClosed (r : PDTicketRow) : Bool :=
  _is_done (some r.ticket_status) && r.update_dt.isSome

/-- The turnaround hours the aggregator computes for a closed row. -/
def achTatH (r : PDTicketRow) : ℚ :=
  match r.update_dt with
  | some udt => max 0 (dtSubSeconds udt r.create_dt / 3600)
  | none => 0

/-- The target-hours value a row resolves to under a ruleset. -/
def targetOf (rules : List (String × ℤ)) (r : PDTicketRow) : ℤ :=
  (_target_hours (some r.ticket_priority) rules).getD 0

def achievedPred (rules : List (String × ℤ)) (r : PDTicketRow) : Bool :=
  achIsClosed r && decide (achTatH r ≤ (targetOf rules r : ℚ))

def breachedPred (rules : List (String × ℤ)) (r : PDTicketRow) : Bool :=
  achIsClosed r && decide ((targetOf rules r : ℚ) < achTatH r)

theorem achStep_counts (rules : List (String × ℤ)) (bs : List Date)
    (interval : String) (now : DateTime) (st : AchState) (r : PDTicketRow) :
    (achStep rules bs interval now st r).closed =
      st.closed + (if achIsClosed r then 1 else 0) ∧
    (achStep rules bs interval now st r).achieved_closed =
      st.achieved_closed + (if achievedPred rules r then 1 else 0) ∧
    (achStep rules bs interval now st r).breached_closed =
      st.breached_closed + (if breachedPred rules r then 1 else 0) := by
  rcases hud : r.update_dt with _ | udt
  · have hC : achIsClosed r = false := by simp [achIsClosed, hud]
    have hA : achievedPred rules r = false := by simp [achievedPred, hC]
    have hB : breachedPred rules r = false := by simp [breachedPred, hC]
    rw [hC, hA, hB]
    simp only [if_neg Bool.false_ne_true, Nat.add_zero]
    unfold achStep
    simp only [hud]
    split_ifs <;>
      exact ⟨notePr_closed st _, notePr_achieved st _, notePr_breached st _⟩
  · cases hdone : _is_done (some r.ticket_status)
    · have hC : achIsClosed r = false := by simp [achIsClosed, hdone]
      have hA : achievedPred rules r = false := by simp [achievedPred, hC]
      have hB : breachedPred rules r = false := by simp [breachedPred, hC]
      rw [hC, hA, hB]
      simp only [if_neg Bool.false_ne_true, Nat.add_zero]
      unfold achStep
      simp only [hud, hdone]
      split_ifs <;>
        exact ⟨notePr_closed st _, notePr_achieved st _, notePr_breached st _⟩
    · have hC : achIsClosed r = true := by simp [achIsClosed, hdone, hud]
      have hT : achTatH r = max 0 (dtSubSeconds udt r.create_dt / 3600) := by
        simp [achTatH, hud]
      rw [hC]
      simp only [if_pos rfl]
      unfold achStep
      simp only [hud, hdone]
      by_cases hle : max 0 (dtSubSeconds udt r.create_dt / 3600) ≤
          ((_target_hours (some r.ticket_priority) rules).getD 0 : ℚ)
      · have hA : achievedPred rules r = true := by
          rw [achievedPred, hC, hT]
          simp [targetOf, hle]
        have hB : breachedPred rules r = false := by
          rw [breachedPred, hC, hT]
          simp [targetOf, not_lt.mpr hle]
        rw [hA, hB, if_pos hle, if_pos rfl, if_neg Bool.false_ne_true]
        exact ⟨by simp [notePr_closed], by simp [notePr_achieved],
          by simp [notePr_breached]⟩
      · have hA : achievedPred rules r = false := by
          rw [achievedPred, hC, hT]
          simp [targetOf, hle]
        have hB : breachedPred rules r = true := by
          rw [breachedPred, hC, hT]
          simp [targetOf, not_le.mp hle]
        rw [hA, hB, if_neg hle, if_pos rfl, if_neg Bool.false_ne_true]
        exact ⟨by simp [notePr_closed], by simp [notePr_achieved],
          by simp [notePr_breached]⟩

theorem achFold_counts (rules : List (String × ℤ)) (bs : List Date)
    (interval : String) (now : DateTime) (l : List PDTicketRow) (st : AchState) :
    (l.foldl (achStep rules bs interval now) st).closed =
      st.closed + l.countP achIsClosed ∧
    (l.foldl (achStep rules bs interval now) st).achieved_closed =
      st.achieved_closed + l.countP (achievedPred rules) ∧
    (l.foldl (achStep rules bs interval now) st).breached_closed =
      st.breached_closed + l.countP (breachedPred rules) := by
  induction l generalizing st with
  | nil => simp
  | cons r l ih =>
    obtain ⟨h1, h2, h3⟩ := ih (achStep rules bs interval now st r)
    obtain ⟨g1, g2, g3⟩ := achStep_counts rules bs interval now st r
    refine ⟨?_, ?_, ?_⟩
    · rw [List.foldl_cons, h1, g1, List.countP_cons]
      split_ifs <;> omega
    · rw [List.foldl_cons, h2, g2, List.countP_cons]
      split_ifs <;> omega
    · rw [List.foldl_cons, h3, g3, List.countP_cons]
      split_ifs <;> omega

theorem countP_achieved_breached (rules : List (String × ℤ))
    (l : List PDTicketRow) :
    l.countP (achievedPred rules) + l.countP (breachedPred rules) =
      l.countP achIsClosed := by
  induction l with
  | nil => rfl
  | cons r l ih =>
    simp only [List.countP_cons]
    have hstep : (if achievedPred rules r = true then 1 else 0) +
        (if breachedPred rules r = true then 1 else 0) =
        (if achIsClosed r = true then 1 else 0) := by
      unfold achievedPred breachedPred
      cases hC : achIsClosed r
      · simp [hC]
      · rcases le_or_lt (achTatH r) ((targetOf rules r : ℚ)) with h | h
        · simp [hC, h, not_lt.mpr h]
        · simp [hC, h, not_le.mpr h]
    omega

/-- C2: on every run of the Achievement Aggregator,
`achieved_closed + breached_closed = closed`; moreover `closed` counts
exactly the rows whose status matches a completion keyword with
`update_dt` present, `achieved_closed` those among them whose turnaround
hours are `<=` the resolved target, and `breached_closed` the rest. -/
theorem C2_achieved_plus_breached_eq_closed (rows : List PDTicketRow)
    (params : SlaParams) (date_from date_to : DateTime) (interval : String)
    (now : DateTime) :
    (_query_sla_achievement rows params date_from date_to interval now).kpi_achieved_closed +
      (_query_sla_achievement rows params date_from date_to interval now).kpi_breached_closed =
      (_query_sla_achievement rows params date_from date_to interval now).kpi_closed ∧
    (_query_sla_achievement rows params date_from date_to interval now).kpi_closed =
      rows.countP achIsClosed ∧
    (_query_sla_achievement rows params date_from date_to interval now).kpi_achieved_closed =
      rows.countP (achievedPred (_compose_rules_from_params params)) ∧
    (_query_sla_achievement rows params date_from date_to interval now).kpi_breached_closed =
      rows.countP (breachedPred (_compose_rules_from_params params)) := by
  obtain ⟨h1, h2, h3⟩ := achFold_counts (_compose_rules_from_params params)
    (_iter_buckets date_from date_to interval) interval now rows
    ⟨0, 0, 0, 0, 0, 0,
      List.replicate (_iter_buckets date_from date_to interval).length 0,
      List.replicate (_iter_buckets date_from date_to interval).length 0,
      [], [], [], []⟩
  simp only [_query_sla_achievement]
  rw [h1, h2, h3]
  refine ⟨?_, by simp, by simp, by simp⟩
  simpa using countP_achieved_breached (_compose_rules_from_params params) rows

/-! ### Concrete inputs used by witnesses and counterexamples -/

def d20240101 : Date := ⟨2024, 1, 1, by decide, by decide, by decide, by decide⟩

def d20240105 : Date := ⟨2024, 1, 5, by decide, by decide, by decide, by decide⟩

/-- 2024-01-01 00:00:00. -/
def dt0 : DateTime := ⟨d20240101, 0⟩

/-- 2024-01-01 06:00:00. -/
def dt6h : DateTime := ⟨d20240101, 21600⟩

/-- 2024-01-05 00:00:00. -/
def dtJan5 : DateTime := ⟨d20240105, 0⟩

def noParams : SlaParams := ⟨none, none, none, none, none⟩

/-- A `p1` ticket created 2024-01-01 00:00 and closed the same day at
06:00: 6h turnaround against a 4h target, so breached by 2h. -/
def rowBreached : PDTicketRow :=
  ⟨1, "T-1", "ticket one", "p1", "closed", 1, none, dt0, some dt6h, 1⟩

/-- The overdue sample `rowBreached` produces in the Achievement
Aggregator. -/
def smpBreached : SlaSample :=
  ⟨"T-1", "ticket one", "p1", fmtYMDHM dt0, fmtYMDHM dt6h, 4,
   pyRound (max 0 (dtSubSeconds dt6h dt0 / 3600)) 2,
   pyRound (max 0 (dtSubSeconds dt6h dt0 / 3600) - ((4 : ℤ) : ℚ)) 2⟩

theorem dtSub_6h : dtSubSeconds dt6h dt0 = 21600 := by
  unfold dtSubSeconds dt6h dt0
  norm_num

theorem target_p1_default :
    (_target_hours (some "p1") (_compose_rules_from_params noParams)).getD 0 = 4 := by
  decide

theorem achStep_rowBreached (bs : List Date) (interval : String) (st : AchState) :
    (achStep (_compose_rules_from_params noParams) bs interval dt0 st
      rowBreached).samples = st.samples ++ [smpBreached] := by
  have hcond : ¬ (max 0 (dtSubSeconds dt6h dt0 / 3600) ≤
      (((_target_hours (some "p1") (_compose_rules_from_params noParams)).getD 0 : ℤ) : ℚ)) := by
    rw [dtSub_6h, target_p1_default]
    norm_num
  unfold achStep rowBreached
  dsimp only
  rw [show _is_done (some "closed") = true from by decide]
  dsimp only
  rw [if_neg hcond]
  dsimp only
  rw [notePr_samples]
  rw [target_p1_default]
  rfl

/-! ### C8 and C7 claim theorems -/

/-- C8 (amended): in both the Achievement and the Overdue Aggregator, the
returned overdue sample list is sorted in non-increasing (descending,
ties allowed) order of `overdue_h`, and its length never exceeds 50.
(Strictly descending fails on ties; see the counterexample.) -/
theorem C8_samples_sorted_bounded (rows : List PDTicketRow) (params : SlaParams)
    (date_from date_to : DateTime) (interval : String) (now : DateTime)
    (rows2 : List PDTicketRow) (params2 : SlaParams)
    (date_from2 date_to2 : DateTime) (interval2 : String) (now2 : DateTime) :
    ((_query_sla_achievement rows params date_from date_to interval now).breached_samples.Pairwise
        (fun a b => b.overdue_h ≤ a.overdue_h) ∧
      (_query_sla_achievement rows params date_from date_to interval now).breached_samples.length ≤ 50) ∧
    ((_query_overdue rows2 params2 date_from2 date_to2 interval2 now2).samples.Pairwise
        (fun a b => b.overdue_h ≤ a.overdue_h) ∧
      (_query_overdue rows2 params2 date_from2 date_to2 interval2 now2).samples.length ≤ 50) := by
  haveI hT1 : IsTotal SlaSample (fun a b => b.overdue_h ≤ a.overdue_h) :=
    ⟨fun a b => le_total b.overdue_h a.overdue_h⟩
  haveI hTr1 : IsTrans SlaSample (fun a b => b.overdue_h ≤ a.overdue_h) :=
    ⟨fun a b c hab hbc => le_trans hbc hab⟩
  haveI hT2 : IsTotal OvSample (fun a b => b.overdue_h ≤ a.overdue_h) :=
    ⟨fun a b => le_total b.overdue_h a.overdue_h⟩
  haveI hTr2 : IsTrans OvSample (fun a b => b.overdue_h ≤ a.overdue_h) :=
    ⟨fun a b c hab hbc => le_trans hbc hab⟩
  refine ⟨⟨?_, ?_⟩, ⟨?_, ?_⟩⟩
  · simp only [_query_sla_achievement]
    exact List.Pairwise.sublist (List.take_sublist _ _)
      (List.sorted_insertionSort (fun (a b : SlaSample) => b.overdue_h ≤ a.overdue_h) _)
  · simp only [_query_sla_achievement]
    rw [List.length_take]
    exact min_le_left _ _
  · simp only [_query_overdue]
    exact List.Pairwise.sublist (List.take_sublist _ _)
      (List.sorted_insertionSort (fun (a b : OvSample) => b.overdue_h ≤ a.overdue_h) _)
  · simp only [_query_overdue]
    rw [List.length_take]
    exact min_le_left _ _

/-- C8 counterexample: two identical breached tickets produce two samples
with equal `overdue_h`, so the sample list is not *strictly* descending. -/
theorem C8_counterexample_tie :
    ¬ ((_query_sla_achievement [rowBreached, rowBreached] noParams dt0 dt0
        "day" dt0).breached_samples.Pairwise
          (fun a b => b.overdue_h < a.overdue_h)) := by
  intro hp
  have hsamps : (List.foldl
      (achStep (_compose_rules_from_params noParams)
        (_iter_buckets dt0 dt0 "day") "day" dt0)
      ⟨0, 0, 0, 0, 0, 0,
        List.replicate (_iter_buckets dt0 dt0 "day").length 0,
        List.replicate (_iter_buckets dt0 dt0 "day").length 0,
        [], [], [], []⟩ [rowBreached, rowBreached]).samples =
      [smpBreached, smpBreached] := by
    rw [List.foldl_cons, List.foldl_cons, List.foldl_nil]
    rw [achStep_rowBreached, achStep_rowBreached]
    rfl
  have hout : (_query_sla_achievement [rowBreached, rowBreached] noParams dt0 dt0
      "day" dt0).breached_samples =
      (List.insertionSort (fun a b => b.overdue_h ≤ a.overdue_h)
        [smpBreached, smpBreached]).take 50 := by
    simp only [_query_sla_achievement]
    rw [hsamps]
  have hsort : List.insertionSort (fun a b => b.overdue_h ≤ a.overdue_h)
      [smpBreached, smpBreached] = [smpBreached, smpBreached] := by
    show List.orderedInsert _ smpBreached
      (List.orderedInsert _ smpBreached (List.insertionSort _ [])) = _
    simp [List.orderedInsert]
  rw [hout, hsort] at hp
  have := List.rel_of_pairwise_cons hp (List.mem_cons_self _ _)
  exact lt_irrefl _ this
/-- A closed ticket whose `update_dt` (2024-01-01 00:00) precedes its
`create_dt` (2024-01-01 06:00): a negative duration of -6h. -/
def rowNeg : PDTicketRow :=
  ⟨2, "T-2", "ticket two", "p1", "closed", 1, none, dt6h, some dt0, 1⟩

theorem dtSub_neg6h : dtSubSeconds dt0 dt6h = -21600 := by
  unfold dtSubSeconds dt6h dt0
  rw [sub_self]
  norm_num

/-- Each achievement-loop step only appends samples whose `tat_h` and
`overdue_h` are non-negative. -/
theorem achStep_samples_sub (rules : List (String × ℤ)) (bs : List Date)
    (interval : String) (now : DateTime) (st : AchState) (r : PDTicketRow) :
    ∀ s ∈ (achStep rules bs interval now st r).samples,
      s ∈ st.samples ∨ (0 ≤ s.tat_h ∧ 0 ≤ s.overdue_h) := by
  intro s hs
  unfold achStep at hs
  dsimp only at hs
  split at hs
  · split at hs
    · rw [notePr_samples] at hs
      exact Or.inl hs
    · rename_i hgt
      rw [notePr_samples] at hs
      rcases List.mem_append.mp hs with h1 | h1
      · exact Or.inl h1
      · rw [List.mem_singleton] at h1
        subst h1
        refine Or.inr ⟨pyRound_nonneg 2 (le_max_left _ _), ?_⟩
        exact pyRound_nonneg 2 (sub_nonneg.mpr (le_of_lt (not_le.mp hgt)))
  · split at hs
    · rw [notePr_samples] at hs
      exact Or.inl hs
    · rename_i hgt
      rw [notePr_samples] at hs
      rcases List.mem_append.mp hs with h1 | h1
      · exact Or.inl h1
      · rw [List.mem_singleton] at h1
        subst h1
        refine Or.inr ⟨pyRound_nonneg 2 (le_max_left _ _), ?_⟩
        exact pyRound_nonneg 2 (sub_nonneg.mpr (le_of_lt (not_le.mp hgt)))

theorem achFold_samples (rules : List (String × ℤ)) (bs : List Date)
    (interval : String) (now : DateTime) :
    ∀ (rows : List PDTicketRow) (st : AchState),
      (∀ s ∈ st.samples, 0 ≤ s.tat_h ∧ 0 ≤ s.overdue_h) →
      ∀ s ∈ (rows.foldl (achStep rules bs interval now) st).samples,
        0 ≤ s.tat_h ∧ 0 ≤ s.overdue_h := by
  intro rows
  induction rows with
  | nil => intro st h s hs; exact h s hs
  | cons r rest ih =>
    intro st h s hs
    rw [List.foldl_cons] at hs
    refine ih _ ?_ s hs
    intro t ht
    rcases achStep_samples_sub rules bs interval now st r t ht with h1 | h1
    · exact h t h1
    · exact h1

/-- Each efficiency-loop step only appends samples whose `resolved_hours`
is non-negative (negative durations are skipped, so never appended). -/
theorem effStep_samples_sub (st : EffState) (r : PDTicketRow) :
    ∀ s ∈ (effStep st r).samples, s ∈ st.samples ∨ 0 ≤ s.resolved_hours := by
  intro s hs
  unfold effStep at hs
  by_cases hd : (! _is_done (some r.ticket_status)) = true
  · rw [if_pos hd] at hs
    exact Or.inl hs
  · rw [if_neg hd] at hs
    rcases hu : r.update_dt with _ | udt
    · rw [hu] at hs
      exact Or.inl hs
    · rw [hu] at hs
      dsimp only at hs
      by_cases hneg : dtSubSeconds udt r.create_dt < 0
      · rw [if_pos hneg] at hs
        exact Or.inl hs
      · rw [if_neg hneg] at hs
        by_cases hlen : st.samples.length < 50
        · rw [if_pos hlen] at hs
          dsimp only at hs
          rcases List.mem_append.mp hs with h1 | h1
          · exact Or.inl h1
          · rw [List.mem_singleton] at h1
            subst h1
            exact Or.inr (pyRound_nonneg 2 (div_nonneg (not_lt.mp hneg) (by norm_num)))
        · rw [if_neg hlen] at hs
          exact Or.inl hs

theorem effFold_samples :
    ∀ (rows : List PDTicketRow) (st : EffState),
      (∀ s ∈ st.samples, 0 ≤ s.resolved_hours) →
      ∀ s ∈ (rows.foldl effStep st).samples, 0 ≤ s.resolved_hours := by
  intro rows
  induction rows with
  | nil => intro st h s hs; exact h s hs
  | cons r rest ih =>
    intro st h s hs
    rw [List.foldl_cons] at hs
    refine ih _ ?_ s hs
    intro t ht
    rcases effStep_samples_sub st r t ht with h1 | h1
    · exact h t h1
    · exact h1

/-- `getD` with default 0 of an all-non-negative list is non-negative. -/
theorem getD_nonneg {s : List ℚ} (h : ∀ x ∈ s, 0 ≤ x) (i : ℕ) : 0 ≤ s.getD i 0 := by
  by_cases hi : i < s.length
  · rw [List.getD_eq_getElem s 0 hi]
    exact h _ (List.getElem_mem hi)
  · rw [List.getD_eq_default s 0 (le_of_not_lt hi)]

/-- The interpolation core is non-negative on non-negative data when the
virtual index is non-negative: the result is a convex combination of two
list entries (or the default 0). -/
theorem interpVal_nonneg {s : List ℚ} (h : ∀ x ∈ s, 0 ≤ x) {k : ℚ}
    (hk : 0 ≤ k) : 0 ≤ interpVal s k := by
  have hf : intTrunc k = ⌊k⌋ := by unfold intTrunc; rw [if_pos hk]
  unfold interpVal
  dsimp only
  split_ifs with hfc
  · exact getD_nonneg h _
  · rw [hf]
    have hA := getD_nonneg h (⌊k⌋.toNat)
    have hB := getD_nonneg h ((min (⌊k⌋ + 1) ((s.length : ℤ) - 1)).toNat)
    have h0t : 0 ≤ k - (⌊k⌋ : ℚ) := sub_nonneg.mpr (Int.floor_le k)
    have h1t : 0 ≤ 1 - (k - (⌊k⌋ : ℚ)) := by
      have := Int.lt_floor_add_one k
      linarith
    nlinarith [mul_nonneg hA h1t, mul_nonneg hB h0t]

/-- `_percentile` of a list of non-negative values at a non-negative
fraction is non-negative. -/
theorem percentile_nonneg {v : List ℚ} (hvpos : ∀ x ∈ v, 0 ≤ x) {p : ℚ}
    (hp : 0 ≤ p) : 0 ≤ _percentile v p := by
  by_cases hv : v = []
  · unfold _percentile
    rw [if_pos hv]
  · rw [percentile_eq_interp v p hv]
    refine interpVal_nonneg ?_ ?_
    · intro x hx
      exact hvpos x ((List.perm_insertionSort (fun a b => a ≤ b) v).mem_iff.mp hx)
    · refine mul_nonneg ?_ hp
      have hlen : (List.insertionSort (fun a b => a ≤ b) v).length = v.length :=
        List.length_insertionSort (fun a b => a ≤ b) v
      have hv1 : 1 ≤ v.length := by
        rcases v with _ | ⟨a, t⟩
        · exact absurd rfl hv
        · simp
      have : (1 : ℚ) ≤ ((List.insertionSort (fun a b => a ≤ b) v).length : ℚ) := by
        rw [hlen]
        exact_mod_cast hv1
      linarith

/-- Each efficiency-loop step only appends non-negative durations to
`done_secs` (a negative duration is skipped). -/
theorem effStep_done_secs_sub (st : EffState) (r : PDTicketRow) :
    ∀ x ∈ (effStep st r).done_secs, x ∈ st.done_secs ∨ 0 ≤ x := by
  intro x hx
  unfold effStep at hx
  by_cases hd : (! _is_done (some r.ticket_status)) = true
  · rw [if_pos hd] at hx
    exact Or.inl hx
  · rw [if_neg hd] at hx
    rcases hu : r.update_dt with _ | udt
    · rw [hu] at hx
      exact Or.inl hx
    · rw [hu] at hx
      dsimp only at hx
      by_cases hneg : dtSubSeconds udt r.create_dt < 0
      · rw [if_pos hneg] at hx
        exact Or.inl hx
      · rw [if_neg hneg] at hx
        by_cases hlen : st.samples.length < 50
        · rw [if_pos hlen] at hx
          dsimp only at hx
          rcases List.mem_append.mp hx with h1 | h1
          · exact Or.inl h1
          · rw [List.mem_singleton] at h1
            subst h1
            exact Or.inr (not_lt.mp hneg)
        · rw [if_neg hlen] at hx
          dsimp only at hx
          rcases List.mem_append.mp hx with h1 | h1
          · exact Or.inl h1
          · rw [List.mem_singleton] at h1
            subst h1
            exact Or.inr (not_lt.mp hneg)

theorem effFold_done_secs :
    ∀ (rows : List PDTicketRow) (st : EffState),
      (∀ x ∈ st.done_secs, 0 ≤ x) →
      ∀ x ∈ (rows.foldl effStep st).done_secs, 0 ≤ x := by
  intro rows
  induction rows with
  | nil => intro st h x hx; exact h x hx
  | cons r rest ih =>
    intro st h x hx
    rw [List.foldl_cons] at hx
    refine ih _ ?_ x hx
    intro t ht
    rcases effStep_done_secs_sub st r t ht with h1 | h1
    · exact h t h1
    · exact h1

/-- C7 (amended): no negative hours value is ever propagated into any
KPI, series value or sample field — in the Achievement Aggregator every
emitted overdue sample has non-negative `tat_h` and `overdue_h`
(durations clamped with `max(0.0, ·)`), and in the Efficiency query every
emitted sample has non-negative `resolved_hours` and the hour-valued KPIs
(`avg_hours`, `median_hours`, `p90_hours`, `open_avg_age_hours`) are all
non-negative.  The efficiency loop, however, reaches this by *skipping*
rows with negative durations (`if sec < 0: continue`), not by clamping
them to zero as the spec states; see the counterexample. -/
theorem C7_no_negative_hours (rows : List PDTicketRow) (params : SlaParams)
    (date_from date_to : DateTime) (interval : String) (now : DateTime)
    (done_rows open_rows : List PDTicketRow) (now2 : DateTime) :
    (∀ s ∈ (_query_sla_achievement rows params date_from date_to interval
        now).breached_samples, 0 ≤ s.tat_h ∧ 0 ≤ s.overdue_h) ∧
    (∀ s ∈ (_query_efficiency done_rows open_rows now2).samples,
      0 ≤ s.resolved_hours) ∧
    0 ≤ (_query_efficiency done_rows open_rows now2).kpi_avg_hours ∧
    0 ≤ (_query_efficiency done_rows open_rows now2).kpi_median_hours ∧
    0 ≤ (_query_efficiency done_rows open_rows now2).kpi_p90_hours ∧
    0 ≤ (_query_efficiency done_rows open_rows now2).kpi_open_avg_age_hours := by
  have hdone : ∀ x ∈ (done_rows.foldl effStep
      ⟨[], List.replicate _BUCKETS.length 0, []⟩).done_secs, 0 ≤ x := by
    refine effFold_done_secs done_rows _ ?_
    intro t ht
    exact absurd ht (List.not_mem_nil t)
  refine ⟨?_, ?_, ?_, ?_, ?_, ?_⟩
  · intro s hs
    simp only [_query_sla_achievement] at hs
    have h1 := List.mem_of_mem_take hs
    have h2 := (List.perm_insertionSort
      (fun (a b : SlaSample) => b.overdue_h ≤ a.overdue_h) _).mem_iff.mp h1
    refine achFold_samples _ _ _ _ rows _ ?_ s h2
    intro t ht
    exact absurd ht (List.not_mem_nil t)
  · intro s hs
    simp only [_query_efficiency] at hs
    refine effFold_samples done_rows _ ?_ s hs
    intro t ht
    exact absurd ht (List.not_mem_nil t)
  · simp only [_query_efficiency]
    split_ifs with h
    · exact le_refl 0
    · exact pyRound_nonneg 2 (div_nonneg
        (div_nonneg (List.sum_nonneg hdone) (Nat.cast_nonneg _)) (by norm_num))
  · simp only [_query_efficiency]
    split_ifs with h
    · exact le_refl 0
    · exact pyRound_nonneg 2 (div_nonneg
        (percentile_nonneg hdone (by norm_num)) (by norm_num))
  · simp only [_query_efficiency]
    split_ifs with h
    · exact le_refl 0
    · exact pyRound_nonneg 2 (div_nonneg
        (percentile_nonneg hdone (by norm_num)) (by norm_num))
  · simp only [_query_efficiency]
    split_ifs with h
    · exact le_refl 0
    · refine pyRound_nonneg 2 (div_nonneg
        (div_nonneg (List.sum_nonneg ?_) (Nat.cast_nonneg _)) (by norm_num))
      intro x hx
      rcases List.mem_filterMap.mp hx with ⟨r, hr, hof⟩
      by_cases h0 : 0 ≤ dtSubSeconds now2 r.create_dt
      · rw [if_pos h0] at hof
        injection hof with h1
        rw [← h1]
        exact h0
      · rw [if_neg h0] at hof
        exact absurd hof (by simp)

/-- C7 counterexample: a closed ticket whose `update_dt` precedes its
`create_dt` is dropped by `_query_efficiency` (`if sec < 0: continue`)
rather than clamped to a zero-hours resolution as the spec says:
`done_count` is 0 where the clamping reading yields 1. -/
theorem C7_counterexample_skip_not_clamp :
    (_query_efficiency [rowNeg] [] dt0).kpi_done_count = 0 ∧
      (_query_efficiency_clamped [rowNeg] [] dt0).kpi_done_count = 1 := by
  constructor
  · simp only [_query_efficiency, List.foldl_cons, List.foldl_nil]
    rw [show effStep ⟨[], List.replicate _BUCKETS.length 0, []⟩ rowNeg =
        ⟨[], List.replicate _BUCKETS.length 0, []⟩ from ?_]
    · rfl
    · unfold effStep rowNeg
      rw [show _is_done (some "closed") = true from by decide]
      dsimp only
      rw [if_neg (by norm_num), if_pos]
      rw [dtSub_neg6h]
      norm_num
  · rfl
/-! ### C3 / C4: bucket-generator claims -/

theorem iter_buckets_day (f t : DateTime) :
    _iter_buckets f t "day" = dayGo f.date t.date := by
  simp [_iter_buckets]

theorem iter_buckets_week (f t : DateTime) :
    _iter_buckets f t "week" = weekGo (mondayOf f.date) (mondayOf t.date) := by
  simp [_iter_buckets]

theorem iter_buckets_month (f t : DateTime) :
    _iter_buckets f t "month" = monthGo (mk1 f.date) (mk1 t.date) := by
  simp [_iter_buckets]

theorem alignedStart_day (d : Date) : alignedStart "day" d = d := by
  simp [alignedStart]

theorem alignedStart_week (d : Date) : alignedStart "week" d = mondayOf d := by
  simp [alignedStart]

theorem alignedStart_month (d : Date) : alignedStart "month" d = mk1 d := by
  simp [alignedStart]

theorem bucketStep_day (d : Date) : bucketStep "day" d = d.nextDay := by
  simp [bucketStep]

theorem bucketStep_week (d : Date) : bucketStep "week" d = d.addDays 7 := by
  simp [bucketStep]

theorem bucketStep_month (d : Date) : bucketStep "month" d = monthSucc d := by
  simp [bucketStep]

/-- Any two Mondays are a whole number of weeks apart. -/
theorem mondayOf_sub_mod7 (a b : Date) :
    ((mondayOf b).toordinal - (mondayOf a).toordinal) % 7 = 0 := by
  rw [toordinal_mondayOf, toordinal_mondayOf]
  omega

/-- C3: when `date_from <= date_to` and the interval is day, week or
month, `_iter_buckets` returns a non-empty strictly increasing list of
bucket start-dates; it starts at the aligned start of `date_from`, ends at
the aligned start of `date_to`, steps by the interval step (next day /
+7 days Monday-aligned / first of next month with year rollover), every
element is aligned (day itself / a Monday / a first-of-month), and all
elements lie between the two aligned endpoints. -/
theorem C3_bucketing_completeness (date_from date_to : DateTime) (interval : String)
    (hft : date_from ≤ date_to)
    (hint : interval = "day" ∨ interval = "week" ∨ interval = "month") :
    _iter_buckets date_from date_to interval ≠ [] ∧
    (_iter_buckets date_from date_to interval).Chain' (fun a b => a < b) ∧
    (_iter_buckets date_from date_to interval).Chain' (fun a b => b = bucketStep interval a) ∧
    (_iter_buckets date_from date_to interval).head? =
      some (alignedStart interval date_from.date) ∧
    (_iter_buckets date_from date_to interval).getLast? =
      some (alignedStart interval date_to.date) ∧
    alignedStart interval date_from.date ≤ date_from.date ∧
    alignedStart interval date_to.date ≤ date_to.date ∧
    (∀ b ∈ _iter_buckets date_from date_to interval,
      alignedStart interval b = b ∧ alignedStart interval date_from.date ≤ b ∧
        b ≤ alignedStart interval date_to.date) := by
  have hd : date_from.date ≤ date_to.date := DateTime.date_le_of_le hft
  rcases hint with rfl | rfl | rfl
  · simp only [iter_buckets_day, alignedStart_day, bucketStep_day]
    refine ⟨?_, ?_, dayGo_chain_step _ _, dayGo_head _ _ hd, dayGo_getLast _ _ hd,
      Date.le_refl' _, Date.le_refl' _, ?_⟩
    · intro hnil
      exact (dayGo_eq_nil_iff _ _).mp hnil hd
    · exact List.Chain'.imp (fun a b hab => by rw [hab]; exact Date.lt_nextDay a)
        (dayGo_chain_step _ _)
    · intro b hb
      exact ⟨trivial, (dayGo_mem_bounds _ _ b hb).1, (dayGo_mem_bounds _ _ b hb).2⟩
  · have hmon : mondayOf date_from.date ≤ mondayOf date_to.date := mondayOf_mono hd
    simp only [iter_buckets_week, alignedStart_week, bucketStep_week]
    refine ⟨?_, ?_, weekGo_chain_step _ _, weekGo_head _ _ hmon,
      weekGo_getLast _ _ hmon (mondayOf_sub_mod7 _ _),
      mondayOf_le _, mondayOf_le _, ?_⟩
    · intro hnil
      exact (weekGo_eq_nil_iff _ _).mp hnil hmon
    · exact List.Chain'.imp (fun a b hab => by rw [hab]; exact Date.lt_addDays a 7 (by norm_num))
        (weekGo_chain_step _ _)
    · intro b hb
      refine ⟨?_, (weekGo_mem_bounds _ _ b hb).1, (weekGo_mem_bounds _ _ b hb).2⟩
      exact mondayOf_eq_self
        (weekday_eq_zero_of_mod7 (weekday_mondayOf _) (weekGo_mem_mod7 _ _ b hb))
  · have hmk : mk1 date_from.date ≤ mk1 date_to.date := mk1_mono hd
    simp only [iter_buckets_month, alignedStart_month, bucketStep_month]
    refine ⟨?_, ?_, monthGo_chain_step _ _, monthGo_head _ _ hmk,
      monthGo_getLast _ _ hmk (mk1_d _) (mk1_d _),
      mk1_le _, mk1_le _, ?_⟩
    · intro hnil
      exact (monthGo_eq_nil_iff _ _).mp hnil hmk
    · exact List.Chain'.imp (fun a b hab => by rw [hab]; exact Date.lt_monthSucc a)
        (monthGo_chain_step _ _)
    · intro b hb
      refine ⟨?_, (monthGo_mem_bounds _ _ b hb).1, (monthGo_mem_bounds _ _ b hb).2⟩
      exact mk1_eq_self (monthGo_mem_d1 _ _ (mk1_d _) b hb)

/-- Witness for C3 at 2024-01-01 .. 2024-01-05, daily buckets. -/
theorem C3_bucketing_completeness_witness :
    _iter_buckets dt0 dtJan5 "day" ≠ [] ∧
    (_iter_buckets dt0 dtJan5 "day").Chain' (fun a b => a < b) ∧
    (_iter_buckets dt0 dtJan5 "day").Chain' (fun a b => b = bucketStep "day" a) ∧
    (_iter_buckets dt0 dtJan5 "day").head? = some (alignedStart "day" dt0.date) ∧
    (_iter_buckets dt0 dtJan5 "day").getLast? = some (alignedStart "day" dtJan5.date) ∧
    alignedStart "day" dt0.date ≤ dt0.date ∧
    alignedStart "day" dtJan5.date ≤ dtJan5.date ∧
    (∀ b ∈ _iter_buckets dt0 dtJan5 "day",
      alignedStart "day" b = b ∧ alignedStart "day" dt0.date ≤ b ∧
        b ≤ alignedStart "day" dtJan5.date) :=
  C3_bucketing_completeness dt0 dtJan5 "day" (Or.inl (by decide)) (Or.inl rfl)
/-- C4 (amended): the bucket list is empty iff the *aligned* start of
`date_from` exceeds the *aligned* start of `date_to` — not simply iff
`date_from > date_to`.  Alignment can equalize reversed endpoints (e.g.
two dates in the same month), yielding a non-empty list; see the
counterexample. -/
theorem C4_empty_iff_aligned_reversed (f t : DateTime) :
    (_iter_buckets f t "day" = [] ↔ ¬ alignedStart "day" f.date ≤ alignedStart "day" t.date) ∧
    (_iter_buckets f t "week" = [] ↔ ¬ alignedStart "week" f.date ≤ alignedStart "week" t.date) ∧
    (_iter_buckets f t "month" = [] ↔ ¬ alignedStart "month" f.date ≤ alignedStart "month" t.date) := by
  refine ⟨?_, ?_, ?_⟩
  · rw [iter_buckets_day, alignedStart_day, alignedStart_day]
    exact dayGo_eq_nil_iff _ _
  · rw [iter_buckets_week, alignedStart_week, alignedStart_week]
    exact weekGo_eq_nil_iff _ _
  · rw [iter_buckets_month, alignedStart_month, alignedStart_month]
    exact monthGo_eq_nil_iff _ _

/-- C4 counterexample: 2024-01-05 > 2024-01-01, yet the month-interval
bucket list is non-empty (both dates align to 2024-01-01). -/
theorem C4_counterexample_reversed_nonempty :
    ¬ dtJan5 ≤ dt0 ∧ _iter_buckets dtJan5 dt0 "month" ≠ [] := by
  constructor
  · intro h
    rcases h with h | ⟨h, -⟩
    · exact absurd h (by decide)
    · exact absurd h (by decide)
  · rw [iter_buckets_month]
    intro hnil
    exact (monthGo_eq_nil_iff _ _).mp hnil (by decide)
def d20240103 : Date := ⟨2024, 1, 3, by decide, by decide, by decide, by decide⟩

/-- 2024-01-03 00:00:00. -/
def dtJan3 : DateTime := ⟨d20240103, 0⟩

def paramsC9 : CatParams := ⟨none, dt0, dtJan5, none⟩

/-- A ticket created 2024-01-03 and closed the same day — inside the
period `[2024-01-01, 2024-01-05]` of `paramsC9`. -/
def rowC9T : PDTicketRow :=
  ⟨3, "T-3", "ticket three", "p2", "closed", 1, none, dtJan3, some dtJan3, 1⟩

/-- C9: in the project-category rollup, each emitted row's `count` is the
number of sample tickets of its category, its `closed` count is the number
of those whose status matches a completion keyword AND whose `update_dt`
is present and `<= date_to`, and its `open` count is `max(count - closed, 0)`
— so a ticket closed after `date_to` is counted as open for the period. -/
theorem C9_closed_within_period (tickets : List PDTicketRow) (types : List PDTypeRow)
    (params : CatParams) (row : CatRow)
    (hrow : row ∈ (_query_project_category tickets types params).rows) :
    row.count = (((tickets.filter (catSamplePred params types)).filter
        (fun t => decide (t.ticket_type = row.type_sid))).length : ℤ) ∧
    row.closed_cnt = (((tickets.filter (catSamplePred params types)).filter
        (fun t => decide (t.ticket_type = row.type_sid) &&
          ((match t.update_dt with
            | some u => decide (u ≤ params.date_to)
            | none => false) && _done_sql_expr (some t.ticket_status)))).length : ℤ) ∧
    row.open_cnt = max (row.count - row.closed_cnt) 0 := by
  unfold _query_project_category at hrow
  dsimp only at hrow
  by_cases hemp : (tickets.filter (catSamplePred params types)).isEmpty = true
  · rw [if_pos hemp] at hrow
    exact absurd hrow (List.not_mem_nil row)
  · rw [if_neg hemp] at hrow
    dsimp only at hrow
    rcases List.mem_map.mp hrow with ⟨sid, hmem, rfl⟩
    exact ⟨rfl, rfl, rfl⟩

/-- Witness for C9 on a one-ticket sample closed inside the period. -/
theorem C9_closed_within_period_witness :
    ∃ row ∈ (_query_project_category [rowC9T] [] paramsC9).rows,
      row.count = ((([rowC9T].filter (catSamplePred paramsC9 [])).filter
          (fun t => decide (t.ticket_type = row.type_sid))).length : ℤ) ∧
      row.closed_cnt = ((([rowC9T].filter (catSamplePred paramsC9 [])).filter
          (fun t => decide (t.ticket_type = row.type_sid) &&
            ((match t.update_dt with
              | some u => decide (u ≤ paramsC9.date_to)
              | none => false) && _done_sql_expr (some t.ticket_status)))).length : ℤ) ∧
      row.open_cnt = max (row.count - row.closed_cnt) 0 := by
  have hlen : (_query_project_category [rowC9T] [] paramsC9).rows.length = 1 := rfl
  rcases hx : (_query_project_category [rowC9T] [] paramsC9).rows with _ | ⟨r0, rest⟩
  · rw [hx] at hlen
    simp at hlen
  · refine ⟨r0, List.mem_cons_self r0 rest, ?_⟩
    exact C9_closed_within_period [rowC9T] [] paramsC9 r0
      (by rw [hx]; exact List.mem_cons_self r0 rest)
/-- An open ticket whose status strictly contains the completion keyword
`closed` without being equal to any completion keyword. -/
def rowC10 : PDTicketRow :=
  ⟨4, "T-4", "ticket four", "p3", "closed - verified", 1, none, dt0, none, 1⟩

/-- Witness for C10: status `closed - verified` is done for the fuzzy
classifier yet counted open by the exact-match `open_now` filter. -/
theorem C10_open_now_exact_match_witness :
    _is_done (some rowC10.ticket_status) = true ∧
    openNowPred 1 rowC10 = true ∧
    rowC10 ∈ [rowC10].filter (fun r => openNowPred 1 r) ∧
    0 < open_now_count [rowC10] 1 :=
  C10_open_now_exact_match [rowC10] 1 rowC10 (List.mem_singleton.mpr rfl) rfl rfl
    "closed" (by decide) (by decide) (by decide)
end CusDesktop
